import Mathlib

/-!
A verification development for the compose subsystem of kraftkit: the
project validation / IP-allocation pass (`compose/project.go`), and the
up/down lifecycle orchestrators.  Go code is shallowly embedded: machine
integers are `Nat` with explicit bounds, Go maps are association lists,
fallible code returns `Except String`, and the external collaborators
(machine control plane, package catalog, build/pull/run pipelines) are
oracles passed in as explicit parameters.
-/

namespace Kraftkit

/-! ## Decimal digits and dotted-quad IPv4 strings

`net.ParseIP` / `net.IP.String` for IPv4 addresses, over `Nat` values
`< 2^32`.  Only dotted-quad IPv4 forms are modelled (the repository's
compose fields are `ipv4_address` and IPv4 subnets). -/

def digitChar (d : Nat) : Char := Char.ofNat (48 + d)

def isDigitChar (c : Char) : Bool := 48 ≤ c.toNat && c.toNat ≤ 57

def digitVal (c : Char) : Nat := c.toNat - 48

/-- Decimal digits of one octet (`0 ≤ b ≤ 255`), as printed by
`net.IP.String` for a single byte. -/
def octetChars (b : Nat) : List Char :=
  if b < 10 then [digitChar b]
  else if b < 100 then [digitChar (b / 10), digitChar (b % 10)]
  else [digitChar (b / 100), digitChar (b / 10 % 10), digitChar (b % 10)]

/-- Parse one dotted-quad field per `net.ParseIP`: one to three decimal
digits, no leading zero (except `"0"` itself), value at most 255. -/
def parseOctetChars : List Char → Option Nat
  | [a] => if isDigitChar a then some (digitVal a) else none
  | [a, b] =>
      if isDigitChar a && isDigitChar b && decide (a ≠ '0') then
        some (10 * digitVal a + digitVal b)
      else none
  | [a, b, c] =>
      if isDigitChar a && isDigitChar b && isDigitChar c && decide (a ≠ '0') then
        let v := 100 * digitVal a + 10 * digitVal b + digitVal c
        if v ≤ 255 then some v else none
      else none
  | _ => none

/-- Full split of a character list at a separator, as `strings.Split`
does for a one-character separator. -/
def splitOnChar (sep : Char) : List Char → List (List Char)
  | [] => [[]]
  | c :: cs =>
      match splitOnChar sep cs with
      | [] => [[]]
      | g :: gs => if c = sep then [] :: g :: gs else (c :: g) :: gs

/-- Split at the first occurrence of a separator (`strings.SplitN`
with limit 2 finds a separator exactly when this returns `some`). -/
def splitFirst (sep : Char) : List Char → Option (List Char × List Char)
  | [] => none
  | c :: cs =>
      if c = sep then some ([], cs)
      else match splitFirst sep cs with
        | none => none
        | some (a, b) => some (c :: a, b)

/-- Inverse of `splitOnChar`: interleave the separator back. -/
def joinOn (sep : Char) : List (List Char) → List Char
  | [] => []
  | [x] => x
  | x :: y :: xs => x ++ sep :: joinOn sep (y :: xs)

/-- Dotted-quad printing of an IPv4 value, `net.IP.String`. -/
def ipChars (ip : Nat) : List Char :=
  octetChars (ip / 2 ^ 24 % 256) ++ '.' ::
  (octetChars (ip / 2 ^ 16 % 256) ++ '.' ::
  (octetChars (ip / 2 ^ 8 % 256) ++ '.' :: octetChars (ip % 256)))

def ipv4ToString (ip : Nat) : String := String.mk (ipChars ip)

def parseIPv4Chars (cs : List Char) : Option Nat :=
  match splitOnChar '.' cs with
  | [a, b, c, d] => do
      let va ← parseOctetChars a
      let vb ← parseOctetChars b
      let vc ← parseOctetChars c
      let vd ← parseOctetChars d
      some (va * 2 ^ 24 + vb * 2 ^ 16 + vc * 2 ^ 8 + vd)
  | _ => none

/-- `net.ParseIP`, restricted to dotted-quad IPv4 strings. -/
def parseIPv4 (s : String) : Option Nat := parseIPv4Chars s.data

/-- The ones-count prefix length part of a CIDR string, per Go's
`dtoi`-based mask parsing in `net.ParseCIDR`: decimal digits only,
whole string consumed, value at most 32. -/
def parsePrefixLen (cs : List Char) : Option Nat :=
  if cs.isEmpty then none
  else if cs.all isDigitChar then
    let n := cs.foldl (fun acc c => acc * 10 + digitVal c) 0
    if n ≤ 32 then some n else none
  else none

/-- `net.ParseCIDR` for IPv4: returns the (unmasked) address part and
the prefix length.  The masked network base is `maskFloor`. -/
def parseCIDR (s : String) : Option (Nat × Nat) :=
  match splitFirst '/' s.data with
  | none => none
  | some (a, m) => do
      let ip ← parseIPv4Chars a
      let p ← parsePrefixLen m
      some (ip, p)

/-- Number of addresses spanned by a prefix length `p`. -/
def hostSize (p : Nat) : Nat := 2 ^ (32 - p)

/-- The network base address: the address with the host bits cleared
(what `net.ParseCIDR` returns as the `IPNet.IP`). -/
def maskFloor (a p : Nat) : Nat := a / hostSize p * hostSize p

/-- `IPNet.Contains`: masking the candidate yields the network base. -/
def cidrContains (base p ip : Nat) : Bool := maskFloor ip p == base

/-- Modelled from the spec: `bridge.IncreaseIP` (package
`kraftkit.sh/machine/network/bridge`, not part of the sources given) —
"advance to the next address in the address space (simple arithmetic
increment respecting the address family's byte width)", i.e. plus one
modulo `2^32` for IPv4. -/
def increaseIP (ip : Nat) : Nat := (ip + 1) % 2 ^ 32

/-- The address-search loop of `Project.Validate` (project.go:247-249):
starting from the subnet base, advance while the current address is
inside the subnet and already claimed.  The Go loop has no fuel; the
`fuel` argument is a step bound, and `fuel32` steps are enough for every
terminating execution of the Go loop (the subnet spans at most `2^32`
addresses and the loop leaves the subnet after at most one full sweep
whenever the prefix length is positive). -/
def allocLoop (contains used : Nat → Bool) : Nat → Nat → Nat
  | 0, ip => ip
  | fuel + 1, ip =>
      if contains ip && used ip then allocLoop contains used fuel (increaseIP ip) else ip

def fuel32 : Nat := 2 ^ 32 + 1

/-! ## Data model (`compose-go` types, as used by `compose/project.go`)

Go maps are association lists (key, value); a `nil` pointer or `nil`
map is `Option.none`. -/

structure IPAMPool where
  subnet : String
  gateway : String
  deriving DecidableEq, Repr

structure IPAMConfigT where
  driver : String
  config : List IPAMPool
  deriving DecidableEq, Repr

structure NetworkConfig where
  name : String
  driver : String
  ipam : IPAMConfigT
  deriving DecidableEq, Repr

structure ServiceNetworkConfig where
  ipv4Address : String
  deriving DecidableEq, Repr

structure BuildConfig where
  context : String
  deriving DecidableEq, Repr

structure ServiceConfig where
  name : String
  image : String
  platform : String
  build : Option BuildConfig
  networks : Option (List (String × Option ServiceNetworkConfig))
  deriving DecidableEq, Repr

structure Project where
  name : String
  workingDir : String
  services : List ServiceConfig
  networks : List (String × NetworkConfig)
  deriving DecidableEq, Repr

/-- The zero value of `types.NetworkConfig` (what a Go map read with a
missing key yields). -/
def zeroNetworkConfig : NetworkConfig := { name := "", driver := "", ipam := { driver := "", config := [] } }

/-! ## `Project.Validate` (project.go:74-261) -/

/-- project.go:76-80 — every service needs an image or a build context. -/
def checkSources : List ServiceConfig → Except String Unit
  | [] => .ok ()
  | s :: rest =>
      if s.image = "" ∧ s.build = none then
        .error ("service " ++ s.name ++ " has neither an image nor a build context")
      else checkSources rest

/-- project.go:83-87 — default the project name from the last segment
of the working directory. -/
def defaultProjectName (p : Project) : String :=
  if p.name = "" then (((splitOnChar '/' p.workingDir.data).map String.mk).getLastD "") else p.name

/-- project.go:90-96 — synthesize a missing image name and prefix both
name and image with the project name. -/
def rewriteService (pname : String) (s : ServiceConfig) : ServiceConfig :=
  { s with
    image := if s.image = "" then pname ++ "-" ++ s.name else s.image,
    name := pname ++ "-" ++ s.name }

/-- project.go:99-114 — default a missing platform from host detection
(the detectors are external collaborators, passed as oracles). -/
def defaultPlatforms (hostPlat hostArch : Except String String) :
    List ServiceConfig → Except String (List ServiceConfig)
  | [] => .ok []
  | s :: rest =>
      if s.platform = "" then
        match hostPlat, hostArch with
        | .error e, _ => .error e
        | .ok _, .error e => .error e
        | .ok hp, .ok ha =>
            match defaultPlatforms hostPlat hostArch rest with
            | .error e => .error e
            | .ok rest' => .ok ({ s with platform := hp ++ "/" ++ ha } :: rest')
      else
        match defaultPlatforms hostPlat hostArch rest with
        | .error e => .error e
        | .ok rest' => .ok (s :: rest')

/-- project.go:117-122 — project-qualify auto-generated network names.
`network.Name[0]` on an empty name is a Go runtime panic, modelled as
an error result. -/
def renameNetwork (pname : String) (kv : String × NetworkConfig) :
    Except String (String × NetworkConfig) :=
  match kv.2.name.data with
  | [] => .error "panic: runtime error: index out of range"
  | c :: _ => .ok (kv.1, if c = '_' then { kv.2 with name := pname ++ kv.2.name } else kv.2)

def renameNetworks (pname : String) :
    List (String × NetworkConfig) → Except String (List (String × NetworkConfig))
  | [] => .ok []
  | kv :: rest =>
      match renameNetwork pname kv with
      | .error e => .error e
      | .ok kv' =>
          match renameNetworks pname rest with
          | .error e => .error e
          | .ok rest' => .ok (kv' :: rest')

/-- project.go:142-151 — fold the IPAM blocks left to right; a later
non-empty subnet/gateway overrides, independently per field. -/
def foldIpam (first : IPAMPool) (rest : List IPAMPool) : IPAMPool :=
  rest.foldl (fun acc cfg =>
    { subnet := if cfg.subnet = "" then acc.subnet else cfg.subnet,
      gateway := if cfg.gateway = "" then acc.gateway else cfg.gateway }) first

/-- project.go:131-191 — validate one network: resolve the driver, fold
the IPAM blocks, parse the subnet, default or check the gateway, and
seed the used-address set with the gateway and the network base.
Returns the updated (key, network) entry and its seeded address list. -/
def validateNetwork (kv : String × NetworkConfig) :
    Except String ((String × NetworkConfig) × List String) :=
  let key := kv.1
  let network :=
    if kv.2.driver = "" then { kv.2 with driver := kv.2.ipam.driver } else kv.2
  if network.driver = "" then
    .error ("network " ++ network.name ++ " has no driver specified")
  else
    match network.ipam.config with
    | [] => .error ("network " ++ network.name ++ " has no IPAM config specified")
    | cfg0 :: cfgRest =>
      let ipamConfig := foldIpam cfg0 cfgRest
      if ipamConfig.subnet = "" then
        .error ("network " ++ network.name ++ " has no subnet specified")
      else if (splitOnChar '/' ipamConfig.subnet.data).length ≠ 2 then
        .error ("network " ++ network.name ++ " has an invalid subnet specified")
      else
        match parseCIDR ipamConfig.subnet with
        | none => .error ("failed to parse " ++ network.name ++ " network subnet")
        | some (addr, p) =>
          if ipamConfig.gateway = "" then
            -- the defaulted gateway is `subnetIP.String()`: the CIDR's
            -- address part, not the masked base
            let ipamConfig := { ipamConfig with gateway := ipv4ToString addr }
            .ok ((key, { network with ipam := { network.ipam with config := ipamConfig :: cfgRest } }),
                 [ipamConfig.gateway, ipv4ToString (maskFloor addr p)])
          else
            match parseIPv4 ipamConfig.gateway with
            | none => .error ("failed to parse " ++ network.name ++ " network gateway")
            | some gw =>
              if cidrContains (maskFloor addr p) p gw then
                .ok ((key, { network with ipam := { network.ipam with config := ipamConfig :: cfgRest } }),
                     [ipamConfig.gateway, ipv4ToString (maskFloor addr p)])
              else
                .error ("network " ++ network.name ++ " gateway is not within the subnet")

def validateNetworks :
    List (String × NetworkConfig) →
    Except String (List (String × NetworkConfig) × List (String × List String))
  | [] => .ok ([], [])
  | kv :: rest =>
      match validateNetwork kv with
      | .error e => .error e
      | .ok (kv', used) =>
          match validateNetworks rest with
          | .error e => .error e
          | .ok (rest', usedRest) => .ok (kv' :: rest', (kv'.1, used) :: usedRest)

/-- Read a network's used-address set (`usedAddrs[name]`). -/
def usedLookup (tbl : List (String × List String)) (k : String) : List String :=
  (tbl.lookup k).getD []

/-- Claim one address on one network (`usedAddrs[name][s] = true`). -/
def usedInsert (tbl : List (String × List String)) (k s : String) :
    List (String × List String) :=
  tbl.map (fun e => if e.1 = k then (e.1, s :: e.2) else e)

/-- project.go:199-223 — walk one service's attachments: reject unknown
networks, replace nil attachments by empty ones, and validate and claim
pinned addresses. -/
def validateServiceNets (networks : List (String × NetworkConfig)) (svcName : String) :
    List (String × Option ServiceNetworkConfig) → List (String × List String) →
    Except String (List (String × Option ServiceNetworkConfig) × List (String × List String))
  | [], used => .ok ([], used)
  | (name, att) :: rest, used =>
      if (networks.lookup name).isNone then
        .error ("service " ++ svcName ++ " references non-existent network " ++ name)
      else
        let att := att.getD { ipv4Address := "" }
        if att.ipv4Address = "" then
          match validateServiceNets networks svcName rest used with
          | .error e => .error e
          | .ok (rest', used') => .ok ((name, some att) :: rest', used')
        else
          match parseIPv4 att.ipv4Address with
          | none => .error ("service " ++ svcName ++ " has an invalid ipv4_address specified")
          | some ip =>
              if (usedLookup used name).contains (ipv4ToString ip) then
                .error ("service " ++ svcName ++ " has an ipv4_address that is already in use")
              else
                match validateServiceNets networks svcName rest
                    (usedInsert used name (ipv4ToString ip)) with
                | .error e => .error e
                | .ok (rest', used') => .ok ((name, some att) :: rest', used')

/-- project.go:194-224 — the pinned-address pass over all services
(dropping attachments to the discarded "default" network first). -/
def validatePins (networks : List (String × NetworkConfig)) :
    List ServiceConfig → List (String × List String) →
    Except String (List ServiceConfig × List (String × List String))
  | [], used => .ok ([], used)
  | svc :: rest, used =>
      match svc.networks with
      | none =>
          match validatePins networks rest used with
          | .error e => .error e
          | .ok (rest', used') => .ok (svc :: rest', used')
      | some atts =>
          match validateServiceNets networks svc.name
              (atts.filter (fun e => e.1 ≠ "default")) used with
          | .error e => .error e
          | .ok (atts', used') =>
              match validatePins networks rest used' with
              | .error e => .error e
              | .ok (rest', used'') => .ok ({ svc with networks := some atts' } :: rest', used'')

/-- project.go:228-258 — assign an address to each of one service's
still-unaddressed attachments by scanning from the subnet base. -/
def assignService (networks : List (String × NetworkConfig)) :
    List (String × Option ServiceNetworkConfig) → List (String × List String) →
    Except String (List (String × Option ServiceNetworkConfig) × List (String × List String))
  | [], used => .ok ([], used)
  | (name, att) :: rest, used =>
      match att with
      | none =>
          match assignService networks rest used with
          | .error e => .error e
          | .ok (rest', used') => .ok ((name, none) :: rest', used')
      | some cfg =>
          if cfg.ipv4Address = "" then
            match ((networks.lookup name).getD zeroNetworkConfig).ipam.config with
            | [] => .error "panic: runtime error: index out of range"
            | cfg0 :: _ =>
              match parseCIDR cfg0.subnet with
              | none => .error ("invalid CIDR address: " ++ cfg0.subnet)
              | some (addr, p) =>
                  let base := maskFloor addr p
                  let ip := allocLoop (cidrContains base p)
                    (fun j => (usedLookup used name).contains (ipv4ToString j)) fuel32 base
                  if cidrContains base p ip then
                    match assignService networks rest
                        (usedInsert used name (ipv4ToString ip)) with
                    | .error e => .error e
                    | .ok (rest', used') =>
                        .ok ((name, some { cfg with ipv4Address := ipv4ToString ip }) :: rest',
                             used')
                  else
                    .error ("not enough free IP addresses in network " ++ name)
          else
            match assignService networks rest used with
            | .error e => .error e
            | .ok (rest', used') => .ok ((name, some cfg) :: rest', used')

/-- project.go:227-259 — the allocation pass over all services. -/
def assignAddresses (networks : List (String × NetworkConfig)) :
    List ServiceConfig → List (String × List String) →
    Except String (List ServiceConfig × List (String × List String))
  | [], used => .ok ([], used)
  | svc :: rest, used =>
      match svc.networks with
      | none =>
          match assignAddresses networks rest used with
          | .error e => .error e
          | .ok (rest', used') => .ok (svc :: rest', used')
      | some atts =>
          match assignService networks atts used with
          | .error e => .error e
          | .ok (atts', used') =>
              match assignAddresses networks rest used' with
              | .error e => .error e
              | .ok (rest', used'') => .ok ({ svc with networks := some atts' } :: rest', used'')

/-- `Project.Validate` (project.go:74-261): the passes in source order,
with Go's early returns as explicit error propagation.  The host
platform and architecture detectors are external collaborators, passed
as oracles. -/
def validate (hostPlat hostArch : Except String String) (project : Project) :
    Except String Project :=
  match checkSources project.services with
  | .error e => .error e
  | .ok () =>
    match defaultPlatforms hostPlat hostArch
        (project.services.map (rewriteService (defaultProjectName project))) with
    | .error e => .error e
    | .ok services1 =>
      match renameNetworks (defaultProjectName project) project.networks with
      | .error e => .error e
      | .ok networks1 =>
        match validateNetworks (networks1.filter (fun kv => kv.1 ≠ "default")) with
        | .error e => .error e
        | .ok (networks2, used0) =>
          match validatePins networks2 services1 used0 with
          | .error e => .error e
          | .ok (services2, used1) =>
            match assignAddresses networks2 services2 used1 with
            | .error e => .error e
            | .ok (services3, _) =>
              .ok { project with name := defaultProjectName project, services := services3, networks := networks2 }

/-! ## Machines and orchestration effects

The machine control plane, package catalog and build/pull/run/remove
pipelines are external collaborators; they appear as oracle functions in
a world structure, and each lifecycle function additionally returns the
list of collaborator calls it made, in order. -/

inductive MachineState where
  | created
  | failed
  | restarting
  | running
  | paused
  | suspended
  | exited
  | errored
  deriving DecidableEq, Repr

structure Machine where
  name : String
  state : MachineState
  deriving DecidableEq, Repr

inductive Action where
  | catalogLocal (image version plat arch : String)
  | catalogRemote (image version plat arch : String)
  | pull (image : String)
  | build (buildCtx : String)
  | pkg (buildCtx : String)
  | run (svc : String)
  | logRunFailed (svc msg : String)
  | removeSvc (svc : String)
  | listNets (driver : String)
  | removeNet (driver nname : String)
  deriving DecidableEq, Repr

/-- Modelled from the spec: `mplatform.PlatformsByName()` (package
`kraftkit.sh/machine/platform`, not part of the sources given) yields
the supported platform names; the spec's examples treat "kvm" as
supported, and the results below rely only on that membership. -/
def platformsByName : List String := ["kvm"]

/-- `platArchFromService` (part_000:131-150): the service platform must
be `<platform>/<arch>` with a supported platform and one of the four
supported architectures. -/
def platArchFromService (service : ServiceConfig) : Except String (String × String) :=
  match splitFirst '/' service.platform.data with
  | none => .error ("invalid platform: " ++ service.platform ++ " for service " ++ service.name)
  | some (a, b) =>
      let plat := String.mk a
      let arch := String.mk b
      if platformsByName.contains plat = false then
        .error ("unsupported platform: " ++ plat ++ " for service " ++ service.name)
      else if arch ≠ "x86_64" ∧ arch ≠ "amd64" ∧ arch ≠ "arm32" ∧ arch ≠ "arm64" then
        .error ("unsupported architecture: " ++ arch ++ " for service " ++ service.name)
      else .ok (plat, arch)

structure UpWorld where
  hostPlat : Except String String
  hostArch : Except String String
  machines : Except String (List Machine)
  catalogLocal : String → String → String → String → Except String Nat
  catalogRemote : String → String → String → String → Except String Nat
  pullResult : String → String → String → Except String Unit
  buildResult : String → String → String → Except String Unit
  pkgResult : String → String → String → String → Except String Unit
  runResult : String → String → Except String Unit

/-- `buildService` (part_000:216-231). -/
def buildService (w : UpWorld) (service : ServiceConfig) : Except String Unit × List Action :=
  match service.build with
  | none => (.error ("service " ++ service.name ++ " has no build context"), [])
  | some b =>
      match platArchFromService service with
      | .error e => (.error e, [])
      | .ok (plat, arch) => (w.buildResult plat arch b.context, [.build b.context])

/-- `pkgService` (part_000:233-244); `service.Build.Context` is read
without a nil check there, so a nil build context is a Go panic. -/
def pkgService (w : UpWorld) (service : ServiceConfig) : Except String Unit × List Action :=
  match platArchFromService service with
  | .error e => (.error e, [])
  | .ok (plat, arch) =>
      match service.build with
      | none => (.error "panic: invalid memory address or nil pointer dereference", [])
      | some b => (w.pkgResult plat arch service.image b.context, [.pkg b.context])

/-- `ensureServiceIsPackaged` (part_000:152-214): local catalog, then
remote catalog (pulling on a hit), then build and package. -/
def ensureServiceIsPackaged (w : UpWorld) (service : ServiceConfig) :
    Except String Unit × List Action :=
  match platArchFromService service with
  | .error e => (.error e, [])
  | .ok (plat, arch) =>
      let nv :=
        match splitFirst ':' service.image.data with
        | none => (service.image, "latest")
        | some (a, b) => (String.mk a, String.mk b)
      let imageName := nv.1
      let imageVersion := nv.2
      let service := { service with image := imageName ++ ":" ++ imageVersion }
      match w.catalogLocal imageName imageVersion plat arch with
      | .error e => (.error e, [.catalogLocal imageName imageVersion plat arch])
      | .ok n =>
          if n ≠ 0 then (.ok (), [.catalogLocal imageName imageVersion plat arch])
          else
            let acts := [Action.catalogLocal imageName imageVersion plat arch,
                         Action.catalogRemote imageName imageVersion plat arch]
            match w.catalogRemote imageName imageVersion plat arch with
            | .error e => (.error e, acts)
            | .ok m =>
                if m ≠ 0 then (w.pullResult plat arch service.image, acts ++ [.pull service.image])
                else
                  let rb := buildService w service
                  match rb.1 with
                  | .error e => (.error e, acts ++ rb.2)
                  | .ok () =>
                      let rp := pkgService w service
                      (rp.1, acts ++ rb.2 ++ rp.2)

/-- The pre-flight conflict check of `UpOptions.Run` (part_000:91-97):
any machine sharing a declared service's name is a conflict — the
machine's state is not consulted. -/
def upPreflight (services : List ServiceConfig) (machines : List Machine) :
    Except String Unit :=
  match services with
  | [] => .ok ()
  | svc :: rest =>
      if machines.any (fun m => m.name == svc.name) then
        .error ("service " ++ svc.name ++ " already running or exited")
      else upPreflight rest machines

/-- part_000:99-103 — resolve every service serially, first failure wins. -/
def upResolve (w : UpWorld) : List ServiceConfig → Except String Unit × List Action
  | [] => (.ok (), [])
  | svc :: rest =>
      let r := ensureServiceIsPackaged w svc
      match r.1 with
      | .error e => (.error e, r.2)
      | .ok () =>
          let r' := upResolve w rest
          (r'.1, r.2 ++ r'.2)

/-- part_000:105-110 — longest service name, for log prefix padding. -/
def longestName (services : List ServiceConfig) : Nat :=
  services.foldl (fun acc s => max acc s.name.length) 0

/-- `runService` (part_000:246-260).  The prefix padding only feeds the
log decorator and is not otherwise observable. -/
def runService (w : UpWorld) (service : ServiceConfig) (_prefixLength : Nat) :
    Except String Unit × List Action :=
  match platArchFromService service with
  | .error e => (.error e, [])
  | .ok _ => (w.runResult service.name service.image, [.run service.name])

/-- part_000:112-126 — the run phase: one task per service, synchronized
by a wait-all barrier; a task's failure is logged and isolated.  The
tasks are independent (each owns one service; the log stream is the only
shared sink), so the observable behaviour — which run calls happen and
which failures get logged — is modelled as their concatenation in
project order. -/
def upRunPhase (w : UpWorld) (plen : Nat) : List ServiceConfig → List Action
  | [] => []
  | svc :: rest =>
      let r := runService w svc plen
      (r.2 ++ match r.1 with
              | .error e => [.logRunFailed svc.name e]
              | .ok () => []) ++ upRunPhase w plen rest

/-- `UpOptions.Run` (part_000:70-129), starting from the already-loaded
project (the compose file loader is filesystem I/O, outside the model).
Returns the result together with the ordered collaborator calls. -/
def upRun (w : UpWorld) (project : Project) : Except String Unit × List Action :=
  match validate w.hostPlat w.hostArch project with
  | .error e => (.error e, [])
  | .ok project =>
      match w.machines with
      | .error e => (.error e, [])
      | .ok machines =>
          match upPreflight project.services machines with
          | .error e => (.error e, [])
          | .ok () =>
              let r := upResolve w project.services
              match r.1 with
              | .error e => (.error e, r.2)
              | .ok () =>
                  (.ok (), r.2 ++ upRunPhase w (longestName project.services) project.services)

structure DownWorld where
  hostPlat : Except String String
  hostArch : Except String String
  machines : Except String (List Machine)
  removeResult : String → Except String Unit
  strategyExists : String → Bool
  listNetworks : String → Except String (List String)
  removeNetResult : String → String → Except String Unit

/-- The inner machine loop of `DownOptions.Run` (stop.go part 2,
lines 226-232 of the concatenated file): one removal call per machine
sharing the service's name, regardless of the machine's state; a
removal failure aborts. -/
def downRemoveOne (w : DownWorld) (svc : ServiceConfig) :
    List Machine → Except String Unit × List Action
  | [] => (.ok (), [])
  | m :: ms =>
      if m.name == svc.name then
        match w.removeResult svc.name with
        | .error e => (.error e, [.removeSvc svc.name])
        | .ok () =>
            let r := downRemoveOne w svc ms
            (r.1, .removeSvc svc.name :: r.2)
      else downRemoveOne w svc ms

/-- `DownOptions.Run`, service-removal phase (lines 225-233). -/
def downServices (w : DownWorld) (machines : List Machine) :
    List ServiceConfig → Except String Unit × List Action
  | [] => (.ok (), [])
  | svc :: rest =>
      let r := downRemoveOne w svc machines
      match r.1 with
      | .error e => (.error e, r.2)
      | .ok () =>
          let r' := downServices w machines rest
          (r'.1, r.2 ++ r'.2)

/-- The per-network removal loop of `DownOptions.Run` (lines 261-267):
remove the declared network when its name is among the driver's
existing networks. -/
def downRemoveNet (w : DownWorld) (net : NetworkConfig) :
    List String → Except String Unit × List Action
  | [] => (.ok (), [])
  | e :: es =>
      if net.name == e then
        match w.removeNetResult net.driver net.name with
        | .error err => (.error err, [.removeNet net.driver net.name])
        | .ok () =>
            let r := downRemoveNet w net es
            (r.1, .removeNet net.driver net.name :: r.2)
      else downRemoveNet w net es

/-- `DownOptions.Run`, network phase (lines 235-268): the per-driver
listing is computed once per driver and cached for the call.  The
strategy lookup and controller construction plus listing are folded
into the `strategyExists` / `listNetworks` oracles. -/
def downNetworks (w : DownWorld) :
    List (String × NetworkConfig) → List (String × List String) →
    Except String Unit × List Action
  | [], _cache => (.ok (), [])
  | kv :: rest, cache =>
      let net := kv.2
      match cache.lookup net.driver with
      | some existing =>
          let r := downRemoveNet w net existing
          match r.1 with
          | .error e => (.error e, r.2)
          | .ok () =>
              let r' := downNetworks w rest cache
              (r'.1, r.2 ++ r'.2)
      | none =>
          if w.strategyExists net.driver = false then
            (.error ("unsupported network driver strategy: " ++ net.driver), [])
          else
            match w.listNetworks net.driver with
            | .error e => (.error e, [.listNets net.driver])
            | .ok ls =>
                let r := downRemoveNet w net ls
                match r.1 with
                | .error e => (.error e, .listNets net.driver :: r.2)
                | .ok () =>
                    let r' := downNetworks w rest ((net.driver, ls) :: cache)
                    (r'.1, .listNets net.driver :: (r.2 ++ r'.2))

/-- `DownOptions.Run` (stop.go part 2, lines 205-271), starting from the
already-loaded project. -/
def downRun (w : DownWorld) (project : Project) : Except String Unit × List Action :=
  match validate w.hostPlat w.hostArch project with
  | .error e => (.error e, [])
  | .ok project =>
      match w.machines with
      | .error e => (.error e, [])
      | .ok machines =>
          let r := downServices w machines project.services
          match r.1 with
          | .error e => (.error e, r.2)
          | .ok () =>
              let r' := downNetworks w project.networks []
              (r'.1, r.2 ++ r'.2)

/-! ## Fixtures and spec-side readings used by the claim theorems -/

/-- The spec's reading of the IPAM fold: per field, the last non-empty
value supplied across the sequence (empty when none is supplied). -/
def lastNonEmptyD (vals : List String) : String :=
  (vals.filter (fun v => v ≠ "")).getLastD ""

/-- The driver-resolution step at the head of the per-network
validation (project.go:132-134). -/
def effDriverNet (net : NetworkConfig) : NetworkConfig :=
  if net.driver = "" then { net with driver := net.ipam.driver } else net

def webService : ServiceConfig :=
  { name := "web", image := "web-img", platform := "kvm/x86_64", build := none,
    networks := none }

def cexProject : Project :=
  { name := "p", workingDir := "/w", services := [webService], networks := [] }

/-- An oracle world with empty catalogs whose pipeline calls all succeed. -/
def plainUpWorld (ms : List Machine) : UpWorld :=
  { hostPlat := .ok "kvm", hostArch := .ok "x86_64", machines := .ok ms,
    catalogLocal := fun _ _ _ _ => .ok 0, catalogRemote := fun _ _ _ _ => .ok 0,
    pullResult := fun _ _ _ => .ok (), buildResult := fun _ _ _ => .ok (),
    pkgResult := fun _ _ _ _ => .ok (), runResult := fun _ _ => .ok () }

def plainDownWorld (ms : List Machine) : DownWorld :=
  { hostPlat := .ok "kvm", hostArch := .ok "x86_64", machines := .ok ms,
    removeResult := fun _ => .ok (), strategyExists := fun _ => true,
    listNetworks := fun _ => .ok [], removeNetResult := fun _ _ => .ok () }

/-- `cexProject` after validation: the service name is prefixed with
the project name, everything else is unchanged. -/
def cexProjectOut : Project :=
  { name := "p", workingDir := "/w",
    services := [{ webService with name := "p-web" }], networks := [] }

def exitedMachine : Machine := { name := "p-web", state := .exited }

/-- A world whose local catalog hits and whose run oracle always
fails. -/
def c8World : UpWorld :=
  { plainUpWorld [] with catalogLocal := fun _ _ _ _ => .ok 1,
                         runResult := fun _ _ => .error "boom" }

/-- The user-pinned addresses on network `n` among a list of
attachments, in order, in canonical (parsed-and-reprinted) form. -/
def pinsOfAtts (n : String) (atts : List (String × Option ServiceNetworkConfig)) :
    List String :=
  atts.filterMap (fun kv =>
    match kv.2 with
    | none => none
    | some att =>
        if kv.1 = n ∧ att.ipv4Address ≠ "" then (parseIPv4 att.ipv4Address).map ipv4ToString
        else none)

/-- The user-pinned addresses on network `n` across services, in the
order the pinned-address pass claims them (non-"default" keys only). -/
def pinsOfSvcs (n : String) : List ServiceConfig → List String
  | [] => []
  | s :: rest =>
      pinsOfAtts n ((s.networks.getD []).filter (fun e => e.1 ≠ "default")) ++ pinsOfSvcs n rest

/-- How the allocation pass transforms one attachment: the key is kept,
a pinned attachment is untouched, and an unpinned one receives an
address that was unclaimed in the pass's input table. -/
def assignedFresh (used : List (String × List String))
    (kv kv' : String × Option ServiceNetworkConfig) : Prop :=
  kv'.1 = kv.1 ∧
  (∀ c, kv.2 = some c → ¬c.ipv4Address = "" → kv' = kv) ∧
  (∀ c, kv.2 = some c → c.ipv4Address = "" →
    ∃ y, kv'.2 = some { ipv4Address := y } ∧ y ∉ usedLookup used kv.1)

/-- `assignedFresh` lifted to whole services. -/
def svcAssignedFresh (used : List (String × List String)) (s s' : ServiceConfig) : Prop :=
  match s.networks, s'.networks with
  | none, none => s' = s
  | some atts, some atts' => List.Forall₂ (assignedFresh used) atts atts'
  | _, _ => False

/-- Total number of network attachments across a service list: an upper
bound on the number of addresses the allocation pass can claim. -/
def attCount (svcs : List ServiceConfig) : Nat :=
  (svcs.map (fun s => (s.networks.getD []).length)).sum

/-- Candidate free addresses of the subnet `[base, base + hostSize p)`
in scan order, excluding the base and the gateway value: what the
allocation loop can hand out. -/
def freeAddrs (base p gv : Nat) : List Nat :=
  (List.range' (base + 1) (hostSize p - 1)).filter (fun x => x != gv)

/-- The one-network used-address table after the gateway and base
strings have been seeded and the addresses `taken` have been claimed
(newest first). -/
def c1Used (n : String) (base gv : Nat) (taken : List Nat) : List (String × List String) :=
  [(n, taken.reverse.map ipv4ToString ++ [ipv4ToString gv, ipv4ToString base])]

/-- Unpinned one-attachment services after allocation: the i-th service
receives the i-th handed-out address. -/
def c1Out (n : String) (svcs : List ServiceConfig) (as : List Nat) : List ServiceConfig :=
  List.zipWith
    (fun s a => { s with networks := some [(n, some { ipv4Address := ipv4ToString a })] })
    svcs as

/-- The removal calls Down's service phase makes when every removal
succeeds: one per (declared service, same-named machine) pair, in
order, regardless of the machine's state. -/
def downSvcTrace (ms : List Machine) : List ServiceConfig → List Action
  | [] => []
  | s :: rest =>
      (ms.filter (fun m => m.name == s.name)).map (fun _ => Action.removeSvc s.name) ++
        downSvcTrace ms rest

/-- A network whose subnet CIDR's address part ("10.0.0.5") differs
from the subnet's base address ("10.0.0.0"), with no gateway given. -/
def cexSubnetNet : NetworkConfig :=
  { name := "mynet", driver := "bridge",
    ipam := { driver := "", config := [{ subnet := "10.0.0.5/24", gateway := "" }] } }

/-- `cexSubnetNet` after validation: the gateway was defaulted to the
CIDR's address part. -/
def cexSubnetNetOut : NetworkConfig :=
  { name := "mynet", driver := "bridge",
    ipam := { driver := "", config := [{ subnet := "10.0.0.5/24", gateway := "10.0.0.5" }] } }

/-- A canonical /24 network with an explicit in-subnet gateway. -/
def witGatewayNet : NetworkConfig :=
  { name := "mynet", driver := "bridge",
    ipam := { driver := "", config := [{ subnet := "10.0.0.0/24", gateway := "10.0.0.7" }] } }

/-- A one-service, one-network project whose service attaches without a
pinned address. -/
def witNetProject : Project :=
  { name := "p", workingDir := "/w",
    services := [{ webService with networks := some [("n1", some { ipv4Address := "" })] }],
    networks := [("n1", witGatewayNet)] }

/-- The service of `witNetProject` after validation: renamed and given
the first free address above the base. -/
def witSvcOut : ServiceConfig :=
  { name := "p-web", image := "web-img", platform := "kvm/x86_64", build := none,
    networks := some [("n1", some { ipv4Address := "10.0.0.1" })] }

def witNetProjectOut : Project :=
  { name := "p", workingDir := "/w", services := [witSvcOut],
    networks := [("n1", witGatewayNet)] }

/-- A /31 network (2 addresses) with no gateway given. -/
def c1Net : NetworkConfig :=
  { name := "mynet", driver := "bridge",
    ipam := { driver := "", config := [{ subnet := "10.0.0.0/31", gateway := "" }] } }

/-- `c1Net` after validation: the gateway was defaulted to the CIDR's
address part "10.0.0.0". -/
def c1NetOut : NetworkConfig :=
  { name := "mynet", driver := "bridge",
    ipam := { driver := "", config := [{ subnet := "10.0.0.0/31", gateway := "10.0.0.0" }] } }

/-- One unpinned service on the /31 network: one more service than the
claim's N-2 bound allows. -/
def c1CexProject : Project :=
  { name := "p", workingDir := "/w",
    services := [{ webService with networks := some [("n1", some { ipv4Address := "" })] }],
    networks := [("n1", c1Net)] }

def c1SvcOut : ServiceConfig :=
  { name := "p-web", image := "web-img", platform := "kvm/x86_64", build := none,
    networks := some [("n1", some { ipv4Address := "10.0.0.1" })] }

/-- `c1CexProject` after validation: the service was allocated
"10.0.0.1", the one address distinct from the defaulted gateway. -/
def c1CexProjectOut : Project :=
  { name := "p", workingDir := "/w", services := [c1SvcOut],
    networks := [("n1", c1NetOut)] }

/-- A project whose one service pins an address outside the attached
network's 10.0.0.0/24 subnet. -/
def pinProject : Project :=
  { name := "p", workingDir := "/w",
    services := [{ webService with
      networks := some [("n1", some { ipv4Address := "192.168.1.1" })] }],
    networks := [("n1", witGatewayNet)] }

def pinSvcOut : ServiceConfig :=
  { name := "p-web", image := "web-img", platform := "kvm/x86_64", build := none,
    networks := some [("n1", some { ipv4Address := "192.168.1.1" })] }

def pinProjectOut : Project :=
  { name := "p", workingDir := "/w", services := [pinSvcOut],
    networks := [("n1", witGatewayNet)] }


/-! # Theorems

## Digits, octets and dotted-quad roundtrips -/

theorem digitChar_toNat {d : Nat} (h : d < 10) : (digitChar d).toNat = 48 + d := by
  have hv : (48 + d).isValidChar := Or.inl (by omega)
  unfold digitChar
  rw [Char.ofNat, dif_pos hv]
  rfl

theorem digitVal_digitChar {d : Nat} (h : d < 10) : digitVal (digitChar d) = d := by
  unfold digitVal
  rw [digitChar_toNat h]
  omega

theorem isDigitChar_digitChar {d : Nat} (h : d < 10) : isDigitChar (digitChar d) = true := by
  unfold isDigitChar
  rw [digitChar_toNat h]
  simp
  omega

theorem isDigitChar_bounds {c : Char} (h : isDigitChar c = true) :
    48 ≤ c.toNat ∧ c.toNat ≤ 57 := by
  unfold isDigitChar at h
  simpa using h

theorem digitChar_digitVal {c : Char} (h : isDigitChar c = true) :
    digitChar (digitVal c) = c := by
  obtain ⟨h1, _⟩ := isDigitChar_bounds h
  unfold digitChar digitVal
  have he : 48 + (c.toNat - 48) = c.toNat := by omega
  rw [he, Char.ofNat_toNat]

theorem digitVal_lt {c : Char} (h : isDigitChar c = true) : digitVal c < 10 := by
  obtain ⟨h1, h2⟩ := isDigitChar_bounds h
  unfold digitVal
  omega

theorem digitChar_ne_dot {d : Nat} (h : d < 10) : digitChar d ≠ '.' := by
  intro he
  have h2 := congrArg Char.toNat he
  rw [digitChar_toNat h] at h2
  have h3 : ('.' : Char).toNat = 46 := rfl
  omega

theorem digitChar_eq_zeroChar {d : Nat} (h : d < 10) : digitChar d = '0' ↔ d = 0 := by
  constructor
  · intro he
    have h2 := congrArg Char.toNat he
    rw [digitChar_toNat h] at h2
    have h3 : ('0' : Char).toNat = 48 := rfl
    omega
  · intro he
    subst he
    rfl

theorem octetChars_roundtrip {b : Nat} (h : b < 256) :
    parseOctetChars (octetChars b) = some b := by
  unfold octetChars
  by_cases h1 : b < 10
  · rw [if_pos h1]
    simp only [parseOctetChars]
    rw [isDigitChar_digitChar h1]
    simp [digitVal_digitChar h1]
  · rw [if_neg h1]
    by_cases h2 : b < 100
    · rw [if_pos h2]
      have hd1 : b / 10 < 10 := by omega
      have hd2 : b % 10 < 10 := by omega
      have hne : ¬(digitChar (b / 10) = '0') := by
        rw [digitChar_eq_zeroChar hd1]
        omega
      simp only [parseOctetChars]
      rw [isDigitChar_digitChar hd1, isDigitChar_digitChar hd2]
      simp [hne, digitVal_digitChar hd1, digitVal_digitChar hd2]
      omega
    · rw [if_neg h2]
      have hd1 : b / 100 < 10 := by omega
      have hd2 : b / 10 % 10 < 10 := by omega
      have hd3 : b % 10 < 10 := by omega
      have hne : ¬(digitChar (b / 100) = '0') := by
        rw [digitChar_eq_zeroChar hd1]
        omega
      simp only [parseOctetChars]
      rw [isDigitChar_digitChar hd1, isDigitChar_digitChar hd2, isDigitChar_digitChar hd3]
      simp [hne, digitVal_digitChar hd1, digitVal_digitChar hd2, digitVal_digitChar hd3]
      omega

theorem parseOctetChars_canon {cs : List Char} {b : Nat}
    (h : parseOctetChars cs = some b) : cs = octetChars b ∧ b < 256 := by
  rcases cs with _ | ⟨a, _ | ⟨a2, _ | ⟨a3, _ | ⟨a4, t⟩⟩⟩⟩
  · simp [parseOctetChars] at h
  · simp only [parseOctetChars] at h
    rcases hd : isDigitChar a with _ | _
    · rw [hd] at h
      simp at h
    · rw [hd] at h
      simp at h
      have hlt := digitVal_lt hd
      constructor
      · rw [← h]
        unfold octetChars
        rw [if_pos (by omega)]
        rw [digitChar_digitVal hd]
      · omega
  · simp only [parseOctetChars] at h
    rcases hd1 : isDigitChar a with _ | _ <;> rcases hd2 : isDigitChar a2 with _ | _ <;>
      rw [hd1, hd2] at h <;> simp at h
    obtain ⟨hne, hb⟩ := h
    have hl1 := digitVal_lt hd1
    have hl2 := digitVal_lt hd2
    have hpos : 1 ≤ digitVal a := by
      rcases Nat.eq_zero_or_pos (digitVal a) with h0 | h0
      · exfalso
        apply hne
        rw [← digitChar_digitVal hd1, digitChar_eq_zeroChar hl1]
        exact h0
      · exact h0
    constructor
    · rw [← hb]
      unfold octetChars
      rw [if_neg (by omega), if_pos (by omega)]
      have e1 : (10 * digitVal a + digitVal a2) / 10 = digitVal a := by omega
      have e2 : (10 * digitVal a + digitVal a2) % 10 = digitVal a2 := by omega
      rw [e1, e2, digitChar_digitVal hd1, digitChar_digitVal hd2]
    · omega
  · simp only [parseOctetChars] at h
    rcases hd1 : isDigitChar a with _ | _ <;> rcases hd2 : isDigitChar a2 with _ | _ <;>
      rcases hd3 : isDigitChar a3 with _ | _ <;>
      rw [hd1, hd2, hd3] at h <;> simp at h
    obtain ⟨hne, hle', hb⟩ := h
    have hl1 := digitVal_lt hd1
    have hl2 := digitVal_lt hd2
    have hl3 := digitVal_lt hd3
    have hpos : 1 ≤ digitVal a := by
      rcases Nat.eq_zero_or_pos (digitVal a) with h0 | h0
      · exfalso
        apply hne
        rw [← digitChar_digitVal hd1, digitChar_eq_zeroChar hl1]
        exact h0
      · exact h0
    constructor
    · rw [← hb]
      unfold octetChars
      rw [if_neg (by omega), if_neg (by omega)]
      have e1 : (100 * digitVal a + 10 * digitVal a2 + digitVal a3) / 100 = digitVal a := by omega
      have e2 : (100 * digitVal a + 10 * digitVal a2 + digitVal a3) / 10 % 10 = digitVal a2 := by
        omega
      have e3 : (100 * digitVal a + 10 * digitVal a2 + digitVal a3) % 10 = digitVal a3 := by omega
      rw [e1, e2, e3, digitChar_digitVal hd1, digitChar_digitVal hd2, digitChar_digitVal hd3]
    · omega
  · simp [parseOctetChars] at h

theorem octetChars_ne_nil (b : Nat) : octetChars b ≠ [] := by
  unfold octetChars
  by_cases h1 : b < 10
  · simp [h1]
  · by_cases h2 : b < 100 <;> simp [h1, h2]

theorem octetChars_no_dot {b : Nat} (h : b < 256) : '.' ∉ octetChars b := by
  unfold octetChars
  by_cases h1 : b < 10
  · simp [h1]
    intro he
    exact digitChar_ne_dot h1 he.symm
  · by_cases h2 : b < 100
    · simp [h1, h2]
      constructor
      · intro he
        exact digitChar_ne_dot (by omega) he.symm
      · intro he
        exact digitChar_ne_dot (by omega) he.symm
    · simp [h1, h2]
      refine ⟨?_, ?_, ?_⟩ <;> intro he
      · exact digitChar_ne_dot (by omega) he.symm
      · exact digitChar_ne_dot (by omega) he.symm
      · exact digitChar_ne_dot (by omega) he.symm

theorem splitOnChar_cons (sep c : Char) (cs : List Char) :
    splitOnChar sep (c :: cs) =
      match splitOnChar sep cs with
      | [] => [[]]
      | g :: gs => if c = sep then [] :: g :: gs else (c :: g) :: gs := rfl

theorem splitOnChar_ne_nil (sep : Char) (cs : List Char) : splitOnChar sep cs ≠ [] := by
  induction cs with
  | nil => simp [splitOnChar]
  | cons c t ih =>
      rw [splitOnChar_cons]
      rcases hs : splitOnChar sep t with _ | ⟨g, gs⟩
      · exact absurd hs ih
      · by_cases hc : c = sep <;> simp [hc]

theorem splitOnChar_no_sep {sep : Char} {cs : List Char} (h : sep ∉ cs) :
    splitOnChar sep cs = [cs] := by
  induction cs with
  | nil => rfl
  | cons c t ih =>
      simp at h
      rw [splitOnChar_cons, ih h.2]
      simp only []
      rw [if_neg (fun he => h.1 he.symm)]

theorem splitOnChar_append {sep : Char} {a rest : List Char} (h : sep ∉ a) :
    splitOnChar sep (a ++ sep :: rest) = a :: splitOnChar sep rest := by
  induction a with
  | nil =>
      simp only [List.nil_append]
      rw [splitOnChar_cons]
      rcases hs : splitOnChar sep rest with _ | ⟨g, gs⟩
      · exact absurd hs (splitOnChar_ne_nil sep rest)
      · simp
  | cons c t ih =>
      simp at h
      simp only [List.cons_append]
      rw [splitOnChar_cons, ih h.2]
      simp only []
      rw [if_neg (fun he => h.1 he.symm)]

theorem joinOn_splitOnChar (sep : Char) (cs : List Char) :
    joinOn sep (splitOnChar sep cs) = cs := by
  induction cs with
  | nil => rfl
  | cons c t ih =>
      rw [splitOnChar_cons]
      rcases hs : splitOnChar sep t with _ | ⟨g, gs⟩
      · exact absurd hs (splitOnChar_ne_nil sep t)
      · rw [hs] at ih
        simp only []
        by_cases hc : c = sep
        · rw [if_pos hc]
          unfold joinOn
          rcases gs with _ | ⟨g2, gs2⟩
          · subst hc
            simp [joinOn] at ih ⊢
            exact ih
          · subst hc
            simpa [joinOn] using ih
        · rw [if_neg hc]
          rcases gs with _ | ⟨g2, gs2⟩
          · simpa [joinOn] using ih
          · simp [joinOn] at ih ⊢
            exact ih

theorem parseIPv4Chars_ipChars {ip : Nat} (h : ip < 2 ^ 32) :
    parseIPv4Chars (ipChars ip) = some ip := by
  have b1 : ip / 2 ^ 24 % 256 < 256 := Nat.mod_lt _ (by norm_num)
  have b2 : ip / 2 ^ 16 % 256 < 256 := Nat.mod_lt _ (by norm_num)
  have b3 : ip / 2 ^ 8 % 256 < 256 := Nat.mod_lt _ (by norm_num)
  have b4 : ip % 256 < 256 := Nat.mod_lt _ (by norm_num)
  unfold parseIPv4Chars ipChars
  rw [splitOnChar_append (octetChars_no_dot b1), splitOnChar_append (octetChars_no_dot b2),
    splitOnChar_append (octetChars_no_dot b3), splitOnChar_no_sep (octetChars_no_dot b4)]
  simp only []
  rw [octetChars_roundtrip b1, octetChars_roundtrip b2, octetChars_roundtrip b3,
    octetChars_roundtrip b4]
  simp only [Option.some_bind, Option.bind_some, Option.bind_eq_bind]
  congr 1
  omega

theorem parseIPv4Chars_canon {cs : List Char} {ip : Nat}
    (h : parseIPv4Chars cs = some ip) : cs = ipChars ip ∧ ip < 2 ^ 32 := by
  unfold parseIPv4Chars at h
  rcases hs : splitOnChar '.' cs with _ | ⟨a, _ | ⟨b, _ | ⟨c, _ | ⟨d, _ | ⟨e, t⟩⟩⟩⟩⟩ <;>
    rw [hs] at h <;> try simp at h
  rcases ha : parseOctetChars a with _ | va <;> rw [ha] at h <;> try simp at h
  rcases hb2 : parseOctetChars b with _ | vb <;> rw [hb2] at h <;> try simp at h
  rcases hc2 : parseOctetChars c with _ | vc <;> rw [hc2] at h <;> try simp at h
  rcases hd2 : parseOctetChars d with _ | vd <;> rw [hd2] at h <;> try simp at h
  obtain ⟨hca, hba⟩ := parseOctetChars_canon ha
  obtain ⟨hcb, hbb⟩ := parseOctetChars_canon hb2
  obtain ⟨hcc, hbc⟩ := parseOctetChars_canon hc2
  obtain ⟨hcd, hbd⟩ := parseOctetChars_canon hd2
  have hip : va * 2 ^ 24 + vb * 2 ^ 16 + vc * 2 ^ 8 + vd = ip := h
  have e1 : ip / 2 ^ 24 % 256 = va := by omega
  have e2 : ip / 2 ^ 16 % 256 = vb := by omega
  have e3 : ip / 2 ^ 8 % 256 = vc := by omega
  have e4 : ip % 256 = vd := by omega
  refine ⟨?_, by omega⟩
  have hjoin := joinOn_splitOnChar '.' cs
  rw [hs] at hjoin
  unfold ipChars
  rw [e1, e2, e3, e4, ← hca, ← hcb, ← hcc, ← hcd, ← hjoin]
  simp [joinOn]

theorem parseIPv4_ipv4ToString {ip : Nat} (h : ip < 2 ^ 32) :
    parseIPv4 (ipv4ToString ip) = some ip := parseIPv4Chars_ipChars h

theorem parseIPv4_canon {s : String} {ip : Nat} (h : parseIPv4 s = some ip) :
    s = ipv4ToString ip ∧ ip < 2 ^ 32 := by
  obtain ⟨h1, h2⟩ := @parseIPv4Chars_canon s.data ip h
  refine ⟨?_, h2⟩
  cases s with
  | mk l => simpa [ipv4ToString] using congrArg String.mk h1

theorem ipv4ToString_inj {a b : Nat} (ha : a < 2 ^ 32) (hb : b < 2 ^ 32)
    (h : ipv4ToString a = ipv4ToString b) : a = b := by
  have h1 := parseIPv4_ipv4ToString ha
  rw [h, parseIPv4_ipv4ToString hb] at h1
  exact (Option.some_injective _ h1).symm

theorem ipv4ToString_ne_empty (ip : Nat) : ipv4ToString ip ≠ "" := by
  unfold ipv4ToString
  intro he
  have h1 : ipChars ip = [] := by
    have h2 := congrArg String.data he
    simpa using h2
  unfold ipChars at h1
  rcases List.append_eq_nil.mp h1 with ⟨h2, _⟩
  exact octetChars_ne_nil _ h2

/-! ## C9 — platform/architecture extraction -/

/-- C9: the platform/architecture helper maps "kvm/x86_64" to
("kvm","x86_64"), and fails for "kvm" (no separator) and for
"kvm/mips" (architecture outside the fixed vocabulary), naming the
offending service in the error. -/
theorem c9_platform_arch_parsing :
    platArchFromService { webService with platform := "kvm/x86_64" } = .ok ("kvm", "x86_64") ∧
    platArchFromService { webService with platform := "kvm" } =
      .error "invalid platform: kvm for service web" ∧
    platArchFromService { webService with platform := "kvm/mips" } =
      .error "unsupported architecture: mips for service web" :=
  ⟨rfl, rfl, rfl⟩

/-! ## C7 — IPAM folding -/

theorem lastNonEmptyD_override (x y : String) (l : List String) :
    lastNonEmptyD ((if y = "" then x else y) :: l) = lastNonEmptyD (x :: y :: l) := by
  unfold lastNonEmptyD
  by_cases hy : y = ""
  · subst hy
    simp [List.filter_cons]
  · rw [if_neg hy]
    by_cases hx : x = ""
    · subst hx
      simp [List.filter_cons]
    · simp [List.filter_cons, hx, hy, List.getLastD_cons]

/-- C7: the IPAM blocks fold left-to-right into one effective pair in
which each field holds the last non-empty value supplied for it, so a
later gateway-only block does not erase an earlier subnet; in
particular the spec's example folds as stated. -/
theorem c7_ipam_folding :
    (∀ (first : IPAMPool) (rest : List IPAMPool),
      foldIpam first rest =
        { subnet := lastNonEmptyD (first.subnet :: rest.map IPAMPool.subnet),
          gateway := lastNonEmptyD (first.gateway :: rest.map IPAMPool.gateway) }) ∧
    foldIpam { subnet := "10.0.0.0/24", gateway := "" }
        [{ subnet := "", gateway := "10.0.0.5" }] =
      { subnet := "10.0.0.0/24", gateway := "10.0.0.5" } := by
  constructor
  · intro first rest
    induction rest generalizing first with
    | nil =>
        cases first with
        | mk s g =>
            unfold foldIpam lastNonEmptyD
            by_cases hs : s = "" <;> by_cases hg : g = "" <;>
              simp [hs, hg, List.filter_cons, List.getLastD]
    | cons c rest ih =>
        have hstep : foldIpam first (c :: rest) =
            foldIpam { subnet := if c.subnet = "" then first.subnet else c.subnet,
                       gateway := if c.gateway = "" then first.gateway else c.gateway } rest := rfl
        rw [hstep, ih]
        simp only [List.map_cons]
        congr 1
        · exact lastNonEmptyD_override first.subnet c.subnet (rest.map IPAMPool.subnet)
        · exact lastNonEmptyD_override first.gateway c.gateway (rest.map IPAMPool.gateway)
  · rfl

/-! ## CIDR / split inversion -/

theorem splitFirst_some {sep : Char} {cs a b : List Char}
    (h : splitFirst sep cs = some (a, b)) : cs = a ++ sep :: b ∧ sep ∉ a := by
  induction cs generalizing a b with
  | nil => simp [splitFirst] at h
  | cons c t ih =>
      unfold splitFirst at h
      by_cases hc : c = sep
      · rw [if_pos hc] at h
        simp at h
        obtain ⟨ha, hb⟩ := h
        subst ha
        subst hb
        subst hc
        simp
      · rw [if_neg hc] at h
        rcases hs : splitFirst sep t with _ | ⟨a', b'⟩ <;> rw [hs] at h <;> simp at h
        obtain ⟨ha, hb⟩ := h
        obtain ⟨h1, h2⟩ := ih hs
        subst ha
        subst hb
        subst h1
        constructor
        · simp
        · simp
          exact ⟨fun he => hc he.symm, h2⟩

theorem parsePrefixLen_inv {cs : List Char} {p : Nat} (h : parsePrefixLen cs = some p) :
    p ≤ 32 ∧ '/' ∉ cs := by
  unfold parsePrefixLen at h
  split_ifs at h with h1 h2
  all_goals simp at h
  constructor
  · omega
  · intro hmem
    have hd := List.all_eq_true.mp h2 _ hmem
    simp [isDigitChar] at hd

theorem parseCIDR_inv {s : String} {a p : Nat} (h : parseCIDR s = some (a, p)) :
    (splitOnChar '/' s.data).length = 2 ∧ p ≤ 32 ∧ a < 2 ^ 32 ∧ s.data ≠ [] := by
  unfold parseCIDR at h
  rcases hs : splitFirst '/' s.data with _ | ⟨ac, mc⟩ <;> rw [hs] at h <;> try simp at h
  rcases hip : parseIPv4Chars ac with _ | av <;> rw [hip] at h <;> try simp at h
  rcases hp : parsePrefixLen mc with _ | pv <;> rw [hp] at h <;> try simp at h
  obtain ⟨hav, hpv⟩ := h
  obtain ⟨hdata, hnosep⟩ := splitFirst_some hs
  obtain ⟨hple, hnos2⟩ := parsePrefixLen_inv hp
  subst hav
  subst hpv
  refine ⟨?_, hple, (parseIPv4Chars_canon hip).2, ?_⟩
  · rw [hdata, splitOnChar_append hnosep, splitOnChar_no_sep hnos2]
    rfl
  · rw [hdata]
    simp

/-! ## C6 — gateway defaulting and containment -/

theorem effDriverNet_ipam (net : NetworkConfig) : (effDriverNet net).ipam = net.ipam := by
  unfold effDriverNet
  split <;> rfl

theorem effDriverNet_name (net : NetworkConfig) : (effDriverNet net).name = net.name := by
  unfold effDriverNet
  split <;> rfl

theorem effDriverNet_self {net : NetworkConfig} (h : ¬net.driver = "") :
    effDriverNet net = net := by
  unfold effDriverNet
  rw [if_neg h]

theorem validateNetwork_eff (k : String) (net : NetworkConfig) :
    validateNetwork (k, net) = validateNetwork (k, effDriverNet net) := by
  by_cases hnd : net.driver = ""
  · unfold validateNetwork effDriverNet
    simp only [hnd, if_pos, if_true]
    by_cases h2 : net.ipam.driver = "" <;> simp [h2]
  · rw [effDriverNet_self hnd]

/-- The body of `validateNetwork` once the driver is resolved and the
subnet parses: the gateway is defaulted to the CIDR's address part when
absent, parsed and checked for mask containment when present. -/
theorem validateNetwork_core (k : String) (net : NetworkConfig) (cfg0 : IPAMPool)
    (rest : List IPAMPool) (addr p : Nat)
    (hnd : ¬net.driver = "")
    (hcfg : net.ipam.config = cfg0 :: rest)
    (hparse : parseCIDR (foldIpam cfg0 rest).subnet = some (addr, p)) :
    ((foldIpam cfg0 rest).gateway = "" →
      validateNetwork (k, net) =
        .ok ((k, { net with ipam := { net.ipam with
                    config := { foldIpam cfg0 rest with gateway := ipv4ToString addr } :: rest } }),
             [ipv4ToString addr, ipv4ToString (maskFloor addr p)])) ∧
    (¬(foldIpam cfg0 rest).gateway = "" →
      (parseIPv4 (foldIpam cfg0 rest).gateway = none →
        validateNetwork (k, net) =
          .error ("failed to parse " ++ net.name ++ " network gateway")) ∧
      (∀ gw, parseIPv4 (foldIpam cfg0 rest).gateway = some gw →
        (cidrContains (maskFloor addr p) p gw = true →
          validateNetwork (k, net) =
            .ok ((k, { net with ipam := { net.ipam with config := foldIpam cfg0 rest :: rest } }),
                 [(foldIpam cfg0 rest).gateway, ipv4ToString (maskFloor addr p)])) ∧
        (cidrContains (maskFloor addr p) p gw = false →
          validateNetwork (k, net) =
            .error ("network " ++ net.name ++ " gateway is not within the subnet")))) := by
  have hsub : ¬(foldIpam cfg0 rest).subnet = "" := by
    intro he
    rw [he] at hparse
    simp [parseCIDR, splitFirst] at hparse
  obtain ⟨hlen, _, _, _⟩ := parseCIDR_inv hparse
  have hred : validateNetwork (k, net) =
      (match parseCIDR (foldIpam cfg0 rest).subnet with
        | none => .error ("failed to parse " ++ net.name ++ " network subnet")
        | some (addr, p) =>
          if (foldIpam cfg0 rest).gateway = "" then
            .ok ((k, { net with ipam := { net.ipam with
                        config := { foldIpam cfg0 rest with gateway := ipv4ToString addr } :: rest } }),
                 [ipv4ToString addr, ipv4ToString (maskFloor addr p)])
          else
            match parseIPv4 (foldIpam cfg0 rest).gateway with
            | none => .error ("failed to parse " ++ net.name ++ " network gateway")
            | some gw =>
              if cidrContains (maskFloor addr p) p gw then
                .ok ((k, { net with ipam := { net.ipam with config := foldIpam cfg0 rest :: rest } }),
                     [(foldIpam cfg0 rest).gateway, ipv4ToString (maskFloor addr p)])
              else
                .error ("network " ++ net.name ++ " gateway is not within the subnet")) := by
    unfold validateNetwork
    simp only [hnd, if_neg, if_false]
    rw [hcfg]
    simp only []
    rw [if_neg hsub, if_neg (by rw [hlen]; simp)]
  rw [hred, hparse]
  simp only []
  constructor
  · intro hg
    rw [if_pos hg]
  · intro hg
    rw [if_neg hg]
    constructor
    · intro hnone
      rw [hnone]
    · intro gw hsome
      rw [hsome]
      constructor
      · intro hc
        simp only [hc, if_true]
      · intro hc
        simp only [hc]
        simp

/-- C6 (amended): for a network whose effective subnet parses, an
absent gateway is defaulted to the **address part of the subnet CIDR
string** (which equals the subnet's base address only when the CIDR is
written in canonical form); a present gateway must parse and be
contained in the subnet's mask, and is left unchanged. -/
theorem c6_gateway_amended (k : String) (net : NetworkConfig) (cfg0 : IPAMPool)
    (rest : List IPAMPool) (addr p : Nat)
    (hcfg : net.ipam.config = cfg0 :: rest)
    (hdrv : ¬(effDriverNet net).driver = "")
    (hparse : parseCIDR (foldIpam cfg0 rest).subnet = some (addr, p)) :
    ((foldIpam cfg0 rest).gateway = "" →
      validateNetwork (k, net) =
        .ok ((k, { name := net.name, driver := (effDriverNet net).driver,
                   ipam := { net.ipam with
                    config := { foldIpam cfg0 rest with gateway := ipv4ToString addr } :: rest } }),
             [ipv4ToString addr, ipv4ToString (maskFloor addr p)])) ∧
    (¬(foldIpam cfg0 rest).gateway = "" →
      (parseIPv4 (foldIpam cfg0 rest).gateway = none →
        validateNetwork (k, net) =
          .error ("failed to parse " ++ net.name ++ " network gateway")) ∧
      (∀ gw, parseIPv4 (foldIpam cfg0 rest).gateway = some gw →
        (cidrContains (maskFloor addr p) p gw = true →
          validateNetwork (k, net) =
            .ok ((k, { name := net.name, driver := (effDriverNet net).driver,
                       ipam := { net.ipam with
                        config := foldIpam cfg0 rest :: rest } }),
                 [(foldIpam cfg0 rest).gateway, ipv4ToString (maskFloor addr p)])) ∧
        (cidrContains (maskFloor addr p) p gw = false →
          validateNetwork (k, net) =
            .error ("network " ++ net.name ++ " gateway is not within the subnet")))) := by
  have hic : (effDriverNet net).ipam.config = cfg0 :: rest := by
    rw [effDriverNet_ipam]
    exact hcfg
  have hcore := validateNetwork_core k (effDriverNet net) cfg0 rest addr p hdrv hic hparse
  rw [validateNetwork_eff k net]
  rw [effDriverNet_name] at hcore
  rw [effDriverNet_ipam] at hcore
  exact hcore

/-- C6 counterexample: with subnet "10.0.0.5/24" and no gateway, the
assigned gateway is "10.0.0.5" — the CIDR's address part — while the
subnet's base (network) address is "10.0.0.0"; the claim's "assigns the
gateway to be the subnet's base address" fails here. -/
theorem c6_default_gateway_cex :
    validateNetwork ("n1", cexSubnetNet) =
      .ok (("n1", cexSubnetNetOut), ["10.0.0.5", "10.0.0.0"]) ∧
    parseCIDR "10.0.0.5/24" = some (167772165, 24) ∧
    ipv4ToString (maskFloor 167772165 24) = "10.0.0.0" ∧
    ("10.0.0.5" : String) ≠ "10.0.0.0" := by
  refine ⟨rfl, rfl, rfl, ?_⟩
  decide

/-- Witness for the amended C6 at a concrete network. -/
theorem c6_gateway_amended_witness :
    validateNetwork ("n1", witGatewayNet) =
      .ok (("n1", witGatewayNet), ["10.0.0.7", "10.0.0.0"]) := by
  have h := (c6_gateway_amended "n1" witGatewayNet
    { subnet := "10.0.0.0/24", gateway := "10.0.0.7" } [] 167772160 24 rfl
    (by decide) rfl).2 (by decide) |>.2 167772167 rfl |>.1 (by decide)
  exact h

/-! ## C3 — Up's pre-flight conflict check -/

theorem upRun_eq {w : UpWorld} {p p' : Project} {ms : List Machine}
    (hv : validate w.hostPlat w.hostArch p = .ok p') (hm : w.machines = .ok ms) :
    upRun w p =
      (match upPreflight p'.services ms with
       | .error e => (.error e, [])
       | .ok () =>
          match (upResolve w p'.services).1 with
          | .error e => (.error e, (upResolve w p'.services).2)
          | .ok () => (.ok (), (upResolve w p'.services).2 ++
              upRunPhase w (longestName p'.services) p'.services)) := by
  unfold upRun
  rw [hv]
  simp only []
  rw [hm]

/-- The conflict check matches on names only: it either passes, with no
declared name shared by any machine, or fails naming a conflicted
service — machine state plays no role. -/
theorem upPreflight_cases (svcs : List ServiceConfig) (ms : List Machine) :
    (upPreflight svcs ms = .ok () ∧ ∀ s ∈ svcs, ∀ m ∈ ms, m.name ≠ s.name) ∨
    (∃ s ∈ svcs, (∃ m ∈ ms, m.name = s.name) ∧
      upPreflight svcs ms = .error ("service " ++ s.name ++ " already running or exited")) := by
  induction svcs with
  | nil =>
      left
      exact ⟨rfl, by simp⟩
  | cons svc rest ih =>
      by_cases hc : ms.any (fun m => m.name == svc.name) = true
      · right
        refine ⟨svc, by simp, ?_, ?_⟩
        · rcases List.any_eq_true.mp hc with ⟨m, hm, he⟩
          exact ⟨m, hm, by simpa using he⟩
        · unfold upPreflight
          rw [if_pos hc]
      · rcases ih with ⟨hok, hall⟩ | ⟨s, hs, hm2, herr⟩
        · left
          constructor
          · unfold upPreflight
            rw [if_neg hc]
            exact hok
          · intro s hs m hm3
            rcases List.mem_cons.mp hs with rfl | hs
            · intro he
              exact hc (List.any_eq_true.mpr ⟨m, hm3, by simpa using he⟩)
            · exact hall s hs m hm3
        · right
          refine ⟨s, List.mem_cons_of_mem _ hs, hm2, ?_⟩
          unfold upPreflight
          rw [if_neg hc]
          exact herr

/-- C3 (amended): `Up` fails fast — before any build/pull/run
collaborator call — with the service-already-running conflict error if
and only if some declared (project-prefixed) service name equals the
name of some listed machine, **regardless of the machine's state**; the
state filter claimed by the spec does not exist in this check. -/
theorem c3_preflight_amended (w : UpWorld) (p p' : Project) (ms : List Machine)
    (hv : validate w.hostPlat w.hostArch p = .ok p') (hm : w.machines = .ok ms) :
    ((∃ s ∈ p'.services, ∃ m ∈ ms, m.name = s.name) →
      ∃ s ∈ p'.services, (∃ m ∈ ms, m.name = s.name) ∧
        upRun w p = (.error ("service " ++ s.name ++ " already running or exited"), [])) ∧
    ((∀ s ∈ p'.services, ∀ m ∈ ms, m.name ≠ s.name) →
      upRun w p =
        (match (upResolve w p'.services).1 with
         | .error e => (.error e, (upResolve w p'.services).2)
         | .ok () => (.ok (), (upResolve w p'.services).2 ++
             upRunPhase w (longestName p'.services) p'.services))) := by
  rcases upPreflight_cases p'.services ms with ⟨hok, hall⟩ | ⟨s, hs, hm2, herr⟩
  · constructor
    · intro ⟨s, hs, m, hm3, he⟩
      exact absurd he (hall s hs m hm3)
    · intro _
      rw [upRun_eq hv hm, hok]
  · constructor
    · intro _
      refine ⟨s, hs, hm2, ?_⟩
      rw [upRun_eq hv hm, herr]
    · intro hall
      rcases hm2 with ⟨m, hm3, he⟩
      exact absurd he (hall s hs m hm3)

/-- C3 counterexample: a machine named like the declared service but in
state `Exited` (neither `Running` nor `Paused`) still makes `Up` fail
with the conflict error, before any collaborator call. -/
theorem c3_any_state_conflicts_cex :
    upRun (plainUpWorld [{ name := "p-web", state := .exited }]) cexProject =
      (.error "service p-web already running or exited", []) ∧
    MachineState.exited ≠ MachineState.running ∧
    MachineState.exited ≠ MachineState.paused :=
  ⟨rfl, by decide, by decide⟩

/-! ## C8 — Up's run-phase failure isolation -/

theorem upResolve_cons (w : UpWorld) (svc : ServiceConfig) (rest : List ServiceConfig) :
    upResolve w (svc :: rest) =
      (match (ensureServiceIsPackaged w svc).1 with
       | .error e => (.error e, (ensureServiceIsPackaged w svc).2)
       | .ok () => ((upResolve w rest).1,
           (ensureServiceIsPackaged w svc).2 ++ (upResolve w rest).2)) := rfl

theorem upResolve_ok_each {w : UpWorld} {svcs : List ServiceConfig}
    (h : (upResolve w svcs).1 = .ok ()) :
    ∀ s ∈ svcs, (ensureServiceIsPackaged w s).1 = .ok () := by
  induction svcs with
  | nil => simp
  | cons svc rest ih =>
      rw [upResolve_cons] at h
      rcases he : (ensureServiceIsPackaged w svc).1 with e | u
      · rw [he] at h
        simp at h
      · cases u
        rw [he] at h
        simp only [] at h
        intro s hs
        rcases List.mem_cons.mp hs with rfl | hs
        · exact he
        · exact ih h s hs

theorem ensure_ok_platArch {w : UpWorld} {s : ServiceConfig}
    (h : (ensureServiceIsPackaged w s).1 = .ok ()) :
    ∃ pa, platArchFromService s = .ok pa := by
  unfold ensureServiceIsPackaged at h
  rcases hpa : platArchFromService s with e | pa
  · rw [hpa] at h
    simp at h
  · exact ⟨pa, rfl⟩

theorem runService_of_platArch {w : UpWorld} {svc : ServiceConfig} {pa : String × String}
    (plen : Nat) (h : platArchFromService svc = .ok pa) :
    runService w svc plen = (w.runResult svc.name svc.image, [.run svc.name]) := by
  unfold runService
  rw [h]

theorem upRunPhase_cons (w : UpWorld) (plen : Nat) (svc : ServiceConfig)
    (rest : List ServiceConfig) :
    upRunPhase w plen (svc :: rest) =
      ((runService w svc plen).2 ++
        match (runService w svc plen).1 with
        | .error e => [.logRunFailed svc.name e]
        | .ok () => []) ++ upRunPhase w plen rest := rfl

theorem upRunPhase_runs {w : UpWorld} {plen : Nat} {svcs : List ServiceConfig}
    (hpa : ∀ s ∈ svcs, ∃ pa, platArchFromService s = .ok pa) :
    ∀ s ∈ svcs, Action.run s.name ∈ upRunPhase w plen svcs := by
  induction svcs with
  | nil => simp
  | cons svc rest ih =>
      intro s hs
      rw [upRunPhase_cons]
      rcases List.mem_cons.mp hs with rfl | hs
      · obtain ⟨pa, hpa1⟩ := hpa s (by simp)
        rw [runService_of_platArch plen hpa1]
        simp
      · exact List.mem_append_right _ (ih (fun t ht => hpa t (List.mem_cons_of_mem _ ht)) s hs)

theorem upRunPhase_logs {w : UpWorld} {plen : Nat} {svcs : List ServiceConfig}
    (hpa : ∀ s ∈ svcs, ∃ pa, platArchFromService s = .ok pa) :
    ∀ s ∈ svcs, ∀ e, w.runResult s.name s.image = .error e →
      Action.logRunFailed s.name e ∈ upRunPhase w plen svcs := by
  induction svcs with
  | nil => simp
  | cons svc rest ih =>
      intro s hs e he
      rw [upRunPhase_cons]
      rcases List.mem_cons.mp hs with rfl | hs
      · obtain ⟨pa, hpa1⟩ := hpa s (by simp)
        rw [runService_of_platArch plen hpa1]
        simp [he]
      · exact List.mem_append_right _
          (ih (fun t ht => hpa t (List.mem_cons_of_mem _ ht)) s hs e he)

/-- C8: once resolution has succeeded, `Up` launches one run task per
service, waits for all, and returns without error — with **no**
assumption on the run oracle's outcomes, so an individual run failure
never propagates to `Up`'s return value and never suppresses another
service's run call; failures surface only as logged entries. -/
theorem c8_up_isolation (w : UpWorld) (p p' : Project) (ms : List Machine) (tr : List Action)
    (hv : validate w.hostPlat w.hostArch p = .ok p') (hm : w.machines = .ok ms)
    (hpre : upPreflight p'.services ms = .ok ())
    (hres : upResolve w p'.services = (.ok (), tr)) :
    upRun w p = (.ok (), tr ++ upRunPhase w (longestName p'.services) p'.services) ∧
    (∀ s ∈ p'.services,
      Action.run s.name ∈ upRunPhase w (longestName p'.services) p'.services) ∧
    (∀ s ∈ p'.services, ∀ e, w.runResult s.name s.image = .error e →
      Action.logRunFailed s.name e ∈ upRunPhase w (longestName p'.services) p'.services) := by
  have h1 : (upResolve w p'.services).1 = .ok () := by rw [hres]
  have hpa : ∀ s ∈ p'.services, ∃ pa, platArchFromService s = .ok pa :=
    fun s hs => ensure_ok_platArch (upResolve_ok_each h1 s hs)
  refine ⟨?_, upRunPhase_runs hpa, upRunPhase_logs hpa⟩
  rw [upRun_eq hv hm, hpre]
  simp only []
  rw [h1]
  simp only []
  rw [hres]

/-! ## C5 — reachability of the missing-build-context branch -/

theorem checkSources_ok {svcs : List ServiceConfig} (h : checkSources svcs = .ok ()) :
    ∀ s ∈ svcs, ¬(s.image = "" ∧ s.build = none) := by
  induction svcs with
  | nil => simp
  | cons svc rest ih =>
      unfold checkSources at h
      by_cases hc : svc.image = "" ∧ svc.build = none
      · rw [if_pos hc] at h
        simp at h
      · rw [if_neg hc] at h
        intro s hs
        rcases List.mem_cons.mp hs with rfl | hs
        · exact hc
        · exact ih h s hs

/-- C5 (amended): validation's source-of-artifact check only guarantees
image-**or**-build; `buildService` fails with the missing-build-context
error exactly for services with no build context, and that branch is
reachable for a validated service that declared an image but no build
context (see the counterexample); for a service with a build context
the branch is not taken. -/
theorem c5_build_amended :
    (∀ (hp ha : Except String String) (p p' : Project), validate hp ha p = .ok p' →
      ∀ s ∈ p.services, ¬(s.image = "" ∧ s.build = none)) ∧
    (∀ (w : UpWorld) (s : ServiceConfig), s.build = none →
      buildService w s = (.error ("service " ++ s.name ++ " has no build context"), [])) ∧
    (∀ (w : UpWorld) (s : ServiceConfig) (b : BuildConfig), s.build = some b →
      buildService w s =
        (match platArchFromService s with
         | .error e => (.error e, [])
         | .ok pa => (w.buildResult pa.1 pa.2 b.context, [.build b.context]))) := by
  refine ⟨?_, ?_, ?_⟩
  · intro hp ha p p' hv s hs
    have hcs : checkSources p.services = .ok () := by
      unfold validate at hv
      rcases hc : checkSources p.services with e | u
      · rw [hc] at hv
        simp at hv
      · cases u
        rfl
    exact checkSources_ok hcs s hs
  · intro w s h
    unfold buildService
    rw [h]
  · intro w s b h
    unfold buildService
    rw [h]
    simp only []
    rcases hpa : platArchFromService s with e | ⟨plat, arch⟩ <;> rfl

/-- C5 counterexample: `cexProject` validates (its one service has an
image and no build context), yet when both catalog lookups miss, `Up`
hits the "has no build context" error — the branch the claim calls
unreachable for validated projects. -/
theorem c5_missing_build_cex :
    upRun (plainUpWorld []) cexProject =
      (.error "service p-web has no build context",
       [.catalogLocal "web-img" "latest" "kvm" "x86_64",
        .catalogRemote "web-img" "latest" "kvm" "x86_64"]) ∧
    webService.build = none ∧ webService.image ≠ "" :=
  ⟨rfl, rfl, by decide⟩

/-- Witness for the amended C5 at concrete inputs. -/
theorem c5_build_amended_witness :
    ¬(webService.image = "" ∧ webService.build = none) ∧
    buildService (plainUpWorld []) webService =
      (.error "service web has no build context", []) := by
  constructor
  · exact c5_build_amended.1 (.ok "kvm") (.ok "x86_64") cexProject cexProjectOut rfl
      webService (by decide)
  · exact c5_build_amended.2.1 (plainUpWorld []) webService rfl

/-! ## C4 — Down's service-removal phase ignores machine state -/

theorem downRemoveOne_ok {w : DownWorld} {svc : ServiceConfig}
    (hrem : w.removeResult svc.name = .ok ()) (ms : List Machine) :
    downRemoveOne w svc ms =
      (.ok (), (ms.filter (fun m => m.name == svc.name)).map
        (fun _ => Action.removeSvc svc.name)) := by
  induction ms with
  | nil => rfl
  | cons m rest ih =>
      unfold downRemoveOne
      by_cases hc : m.name == svc.name
      · rw [if_pos hc, hrem, ih]
        simp [List.filter_cons, hc]
      · rw [if_neg hc, ih]
        simp [List.filter_cons, hc]

theorem downServices_ok {w : DownWorld} {ms : List Machine}
    (hrem : ∀ n, w.removeResult n = .ok ()) (svcs : List ServiceConfig) :
    downServices w ms svcs = (.ok (), downSvcTrace ms svcs) := by
  induction svcs with
  | nil => rfl
  | cons svc rest ih =>
      unfold downServices
      rw [downRemoveOne_ok (hrem svc.name)]
      simp only []
      rw [ih]
      rfl

theorem downRun_eq {w : DownWorld} {p p' : Project} {ms : List Machine}
    (hv : validate w.hostPlat w.hostArch p = .ok p') (hm : w.machines = .ok ms) :
    downRun w p =
      (match (downServices w ms p'.services).1 with
       | .error e => (.error e, (downServices w ms p'.services).2)
       | .ok () => ((downNetworks w p'.networks []).1,
           (downServices w ms p'.services).2 ++ (downNetworks w p'.networks []).2)) := by
  unfold downRun
  rw [hv]
  simp only []
  rw [hm]

/-- C4 (amended): Down's service phase issues one removal call per
(declared service, same-named machine) pair **regardless of the
machine's state** — the `Running`/`Paused` filter exists in `Stop`, not
in `Down`; services whose name matches no machine are silently skipped
and contribute neither a call nor an error. -/
theorem c4_down_amended (w : DownWorld) (p p' : Project) (ms : List Machine)
    (hv : validate w.hostPlat w.hostArch p = .ok p') (hm : w.machines = .ok ms)
    (hrem : ∀ n, w.removeResult n = .ok ()) :
    downServices w ms p'.services = (.ok (), downSvcTrace ms p'.services) ∧
    downRun w p = ((downNetworks w p'.networks []).1,
      downSvcTrace ms p'.services ++ (downNetworks w p'.networks []).2) ∧
    (∀ s ∈ p'.services, (∀ m ∈ ms, m.name ≠ s.name) →
      (ms.filter (fun m => m.name == s.name)).map (fun _ => Action.removeSvc s.name) = []) := by
  refine ⟨downServices_ok hrem p'.services, ?_, ?_⟩
  · rw [downRun_eq hv hm, downServices_ok hrem p'.services]
  · intro s _ hall
    have : ms.filter (fun m => m.name == s.name) = [] := by
      rw [List.filter_eq_nil_iff]
      intro m hm2
      simpa using hall m hm2
    rw [this]
    rfl

/-- C4 counterexample: a machine in state `Exited` (neither `Running`
nor `Paused`) sharing the declared service's name still receives a
removal call from Down — the claim's state filter is absent. -/
theorem c4_down_removes_stopped_cex :
    downRun (plainDownWorld [{ name := "p-web", state := .exited }]) cexProject =
      (.ok (), [.removeSvc "p-web"]) ∧
    MachineState.exited ≠ MachineState.running ∧
    MachineState.exited ≠ MachineState.paused :=
  ⟨rfl, by decide, by decide⟩

/-- Witness for the amended C4 at concrete inputs. -/
theorem c4_down_amended_witness :
    downServices (plainDownWorld [exitedMachine]) [exitedMachine]
        cexProjectOut.services =
      (.ok (), [.removeSvc "p-web"]) := by
  have h := (c4_down_amended (plainDownWorld [exitedMachine]) cexProject cexProjectOut
    [exitedMachine] rfl rfl (fun _ => rfl)).1
  exact h

/-- Witness for the amended C3 at concrete inputs. -/
theorem c3_preflight_amended_witness :
    ∃ s ∈ cexProjectOut.services,
      (∃ m ∈ [exitedMachine], m.name = s.name) ∧
      upRun (plainUpWorld [exitedMachine]) cexProject =
        (.error ("service " ++ s.name ++ " already running or exited"), []) := by
  exact (c3_preflight_amended (plainUpWorld [exitedMachine]) cexProject cexProjectOut
    [exitedMachine] rfl rfl).1
    ⟨{ webService with name := "p-web" }, by decide, ⟨exitedMachine, by decide, rfl⟩⟩

/-- Witness for C8 at concrete inputs: a world whose run oracle fails
for the one declared service, yet `Up` returns without error and the
failure appears only in the log trace. -/
theorem c8_up_isolation_witness :
    upRun c8World cexProject =
      (.ok (), [.catalogLocal "web-img" "latest" "kvm" "x86_64",
                .run "p-web", .logRunFailed "p-web" "boom"]) := by
  have h := (c8_up_isolation c8World cexProject cexProjectOut
    [] [.catalogLocal "web-img" "latest" "kvm" "x86_64"] rfl rfl rfl rfl).1
  exact h

/-! ## Inversion of the validation pipeline -/

theorem validate_inv {hp ha : Except String String} {p p' : Project}
    (h : validate hp ha p = .ok p') :
    checkSources p.services = .ok () ∧
    ∃ svcs1 nets1 nets2 used2 svcs3 used3 svcs4 used4,
      defaultPlatforms hp ha (p.services.map (rewriteService (defaultProjectName p))) =
        .ok svcs1 ∧
      renameNetworks (defaultProjectName p) p.networks = .ok nets1 ∧
      validateNetworks (nets1.filter (fun kv => kv.1 ≠ "default")) = .ok (nets2, used2) ∧
      validatePins nets2 svcs1 used2 = .ok (svcs3, used3) ∧
      assignAddresses nets2 svcs3 used3 = .ok (svcs4, used4) ∧
      p' = { p with name := defaultProjectName p, services := svcs4, networks := nets2 } := by
  unfold validate at h
  rcases hc : checkSources p.services with e | u
  · rw [hc] at h
    simp at h
  · cases u
    rw [hc] at h
    simp only [] at h
    refine ⟨rfl, ?_⟩
    rcases h1 : defaultPlatforms hp ha (p.services.map (rewriteService (defaultProjectName p)))
      with e | svcs1
    · rw [h1] at h
      simp at h
    · rw [h1] at h
      simp only [] at h
      rcases h2 : renameNetworks (defaultProjectName p) p.networks with e | nets1
      · rw [h2] at h
        simp at h
      · rw [h2] at h
        simp only [] at h
        rcases h3 : validateNetworks (nets1.filter (fun kv => kv.1 ≠ "default"))
          with e | ⟨nets2, used2⟩
        · rw [h3] at h
          simp at h
        · rw [h3] at h
          simp only [] at h
          rcases h4 : validatePins nets2 svcs1 used2 with e | ⟨svcs3, used3⟩
          · rw [h4] at h
            simp at h
          · rw [h4] at h
            simp only [] at h
            rcases h5 : assignAddresses nets2 svcs3 used3 with e | ⟨svcs4, used4⟩
            · rw [h5] at h
              simp at h
            · rw [h5] at h
              simp only [Except.ok.injEq] at h
              refine ⟨svcs1, nets1, nets2, used2, svcs3, used3, svcs4, used4,
                ?_, ?_, ?_, ?_, ?_, h.symm⟩ <;> first | exact h1 | exact h2 | exact h3 | exact h4 | exact h5 | rfl

/-! ## C10 — every validated attachment is present and addressed -/

theorem validateServiceNets_some {networks : List (String × NetworkConfig)} {svcName : String}
    {atts : List (String × Option ServiceNetworkConfig)}
    {used : List (String × List String)}
    {atts' : List (String × Option ServiceNetworkConfig)}
    {used' : List (String × List String)}
    (h : validateServiceNets networks svcName atts used = .ok (atts', used')) :
    ∀ kv ∈ atts', ∃ c, kv.2 = some c := by
  induction atts generalizing used atts' used' with
  | nil =>
      unfold validateServiceNets at h
      simp at h
      obtain ⟨h1, -⟩ := h
      subst h1
      simp
  | cons hd rest ih =>
      obtain ⟨name, att⟩ := hd
      unfold validateServiceNets at h
      by_cases hn : (List.lookup name networks).isNone
      · rw [if_pos hn] at h
        simp at h
      · rw [if_neg hn] at h
        simp only [] at h
        by_cases hemp : (att.getD { ipv4Address := "" }).ipv4Address = ""
        · rw [if_pos hemp] at h
          rcases hr : validateServiceNets networks svcName rest used with e | ⟨r', u'⟩ <;>
            rw [hr] at h
          · simp at h
          · simp only [Except.ok.injEq, Prod.mk.injEq] at h
            obtain ⟨h1, -⟩ := h
            subst h1
            intro kv hkv
            rcases List.mem_cons.mp hkv with rfl | hkv
            · exact ⟨_, rfl⟩
            · exact ih hr kv hkv
        · rw [if_neg hemp] at h
          rcases hip : parseIPv4 (att.getD { ipv4Address := "" }).ipv4Address with _ | ip <;>
            rw [hip] at h <;> simp only [] at h
          · simp at h
          · by_cases hused : (usedLookup used name).contains (ipv4ToString ip)
            · rw [if_pos hused] at h
              simp at h
            · rw [if_neg hused] at h
              rcases hr : validateServiceNets networks svcName rest
                  (usedInsert used name (ipv4ToString ip)) with e | ⟨r', u'⟩ <;> rw [hr] at h
              · simp at h
              · simp only [Except.ok.injEq, Prod.mk.injEq] at h
                obtain ⟨h1, -⟩ := h
                subst h1
                intro kv hkv
                rcases List.mem_cons.mp hkv with rfl | hkv
                · exact ⟨_, rfl⟩
                · exact ih hr kv hkv

theorem validatePins_some {networks : List (String × NetworkConfig)}
    {svcs : List ServiceConfig} {used : List (String × List String)}
    {svcs' : List ServiceConfig} {used' : List (String × List String)}
    (h : validatePins networks svcs used = .ok (svcs', used')) :
    ∀ s ∈ svcs', ∀ kv ∈ s.networks.getD [], ∃ c, kv.2 = some c := by
  induction svcs generalizing used svcs' used' with
  | nil =>
      unfold validatePins at h
      simp at h
      obtain ⟨h1, -⟩ := h
      subst h1
      simp
  | cons svc rest ih =>
      unfold validatePins at h
      split at h
      case _ hnone =>
        rcases hr : validatePins networks rest used with e | ⟨r', u'⟩ <;> rw [hr] at h
        · simp at h
        · simp only [Except.ok.injEq, Prod.mk.injEq] at h
          obtain ⟨h1, -⟩ := h
          subst h1
          intro s hs
          rcases List.mem_cons.mp hs with rfl | hs
          · rw [hnone]
            simp
          · exact ih hr s hs
      case _ atts hatts =>
        rcases hsn : validateServiceNets networks svc.name
            (atts.filter (fun e => e.1 ≠ "default")) used with e | ⟨atts', used1⟩ <;>
          rw [hsn] at h <;> simp only [] at h
        · simp at h
        · rcases hr : validatePins networks rest used1 with e | ⟨r', u'⟩ <;> rw [hr] at h
          · simp at h
          · simp only [Except.ok.injEq, Prod.mk.injEq] at h
            obtain ⟨h1, -⟩ := h
            subst h1
            intro s hs
            rcases List.mem_cons.mp hs with rfl | hs
            · intro kv hkv
              exact validateServiceNets_some hsn kv (by simpa using hkv)
            · exact ih hr s hs

theorem assignService_addr {networks : List (String × NetworkConfig)}
    {atts : List (String × Option ServiceNetworkConfig)}
    {used : List (String × List String)}
    {atts' : List (String × Option ServiceNetworkConfig)}
    {used' : List (String × List String)}
    (hsome : ∀ kv ∈ atts, ∃ c, (kv : String × Option ServiceNetworkConfig).2 = some c)
    (h : assignService networks atts used = .ok (atts', used')) :
    ∀ kv ∈ atts', ∃ c, kv.2 = some c ∧ c.ipv4Address ≠ "" := by
  induction atts generalizing used atts' used' with
  | nil =>
      unfold assignService at h
      simp at h
      obtain ⟨h1, -⟩ := h
      subst h1
      simp
  | cons hd rest ih =>
      obtain ⟨name, att⟩ := hd
      have hrest : ∀ kv ∈ rest, ∃ c, (kv : String × Option ServiceNetworkConfig).2 = some c :=
        fun kv hkv => hsome kv (List.mem_cons_of_mem _ hkv)
      unfold assignService at h
      match att, h with
      | none, h =>
          obtain ⟨c, hc⟩ := hsome (name, none) (by simp)
          simp at hc
      | some cfg, h =>
          simp only [] at h
          by_cases hemp : cfg.ipv4Address = ""
          · rw [if_pos hemp] at h
            rcases hcfg : ((networks.lookup name).getD zeroNetworkConfig).ipam.config
              with _ | ⟨cfg0, crest⟩ <;> rw [hcfg] at h <;> simp only [] at h
            · simp at h
            · rcases hpc : parseCIDR cfg0.subnet with _ | ⟨addr, pfx⟩ <;>
                rw [hpc] at h <;> simp only [] at h
              · simp at h
              · set ipVal := allocLoop (cidrContains (maskFloor addr pfx) pfx)
                  (fun j => (usedLookup used name).contains (ipv4ToString j)) fuel32
                  (maskFloor addr pfx) with hipdef
                by_cases hct : cidrContains (maskFloor addr pfx) pfx ipVal
                · rw [if_pos hct] at h
                  rcases hr : assignService networks rest
                      (usedInsert used name (ipv4ToString ipVal)) with e | ⟨r', u'⟩ <;>
                    rw [hr] at h
                  · simp at h
                  · simp only [Except.ok.injEq, Prod.mk.injEq] at h
                    obtain ⟨h1, -⟩ := h
                    subst h1
                    intro kv hkv
                    rcases List.mem_cons.mp hkv with rfl | hkv
                    · exact ⟨_, rfl, ipv4ToString_ne_empty _⟩
                    · exact ih hrest hr kv hkv
                · rw [if_neg hct] at h
                  simp at h
          · rw [if_neg hemp] at h
            rcases hr : assignService networks rest used with e | ⟨r', u'⟩ <;> rw [hr] at h
            · simp at h
            · simp only [Except.ok.injEq, Prod.mk.injEq] at h
              obtain ⟨h1, -⟩ := h
              subst h1
              intro kv hkv
              rcases List.mem_cons.mp hkv with rfl | hkv
              · exact ⟨cfg, rfl, hemp⟩
              · exact ih hrest hr kv hkv

theorem assignAddresses_addr {networks : List (String × NetworkConfig)}
    {svcs : List ServiceConfig} {used : List (String × List String)}
    {svcs' : List ServiceConfig} {used' : List (String × List String)}
    (hsome : ∀ s ∈ svcs, ∀ kv ∈ s.networks.getD [], ∃ c,
      (kv : String × Option ServiceNetworkConfig).2 = some c)
    (h : assignAddresses networks svcs used = .ok (svcs', used')) :
    ∀ s ∈ svcs', ∀ kv ∈ s.networks.getD [], ∃ c, kv.2 = some c ∧ c.ipv4Address ≠ "" := by
  induction svcs generalizing used svcs' used' with
  | nil =>
      unfold assignAddresses at h
      simp at h
      obtain ⟨h1, -⟩ := h
      subst h1
      simp
  | cons svc rest ih =>
      have hrest : ∀ s ∈ rest, ∀ kv ∈ s.networks.getD [], ∃ c,
          (kv : String × Option ServiceNetworkConfig).2 = some c :=
        fun s hs => hsome s (List.mem_cons_of_mem _ hs)
      unfold assignAddresses at h
      split at h
      case _ hnone =>
        rcases hr : assignAddresses networks rest used with e | ⟨r', u'⟩ <;> rw [hr] at h
        · simp at h
        · simp only [Except.ok.injEq, Prod.mk.injEq] at h
          obtain ⟨h1, -⟩ := h
          subst h1
          intro s hs
          rcases List.mem_cons.mp hs with rfl | hs
          · rw [hnone]
            simp
          · exact ih hrest hr s hs
      case _ atts hatts =>
        rcases hsv : assignService networks atts used with e | ⟨atts', used1⟩ <;>
          rw [hsv] at h <;> simp only [] at h
        · simp at h
        · rcases hr : assignAddresses networks rest used1 with e | ⟨r', u'⟩ <;> rw [hr] at h
          · simp at h
          · simp only [Except.ok.injEq, Prod.mk.injEq] at h
            obtain ⟨h1, -⟩ := h
            subst h1
            intro s hs
            rcases List.mem_cons.mp hs with rfl | hs
            · intro kv hkv
              refine assignService_addr ?_ hsv kv (by simpa using hkv)
              intro kv2 hkv2
              exact hsome svc (by simp) kv2 (by rw [hatts]; simpa using hkv2)
            · exact ih hrest hr s hs

/-- C10: after a successful `Validate`, every entry in every service's
networks mapping is a present (non-nil) attachment carrying a non-empty
ipv4 address: nil attachments were replaced during the pinned-address
pass and every still-empty address was filled by the allocation loop. -/
theorem c10_all_attachments_addressed (hp ha : Except String String) (p p' : Project)
    (hv : validate hp ha p = .ok p') :
    ∀ s ∈ p'.services, ∀ kv ∈ s.networks.getD [], ∃ c, kv.2 = some c ∧ c.ipv4Address ≠ "" := by
  obtain ⟨-, svcs1, nets1, nets2, used2, svcs3, used3, svcs4, used4,
    h1, h2, h3, h4, h5, hout⟩ := validate_inv hv
  subst hout
  exact assignAddresses_addr (validatePins_some h4) h5

/-- Witness for C10 at a concrete validated project and attachment. -/
theorem c10_all_attachments_addressed_witness :
    ∃ c, (("n1", some { ipv4Address := "10.0.0.1" }) :
        String × Option ServiceNetworkConfig).2 = some c ∧ c.ipv4Address ≠ "" :=
  c10_all_attachments_addressed (.ok "kvm") (.ok "x86_64") witNetProject witNetProjectOut
    rfl witSvcOut (by decide) ("n1", some { ipv4Address := "10.0.0.1" }) (by decide)

/-! ## C2 — pinned addresses -/

theorem usedLookup_cons_self (ek : String) (ev : List String)
    (rest : List (String × List String)) :
    usedLookup ((ek, ev) :: rest) ek = ev := by
  simp [usedLookup, List.lookup]

theorem usedLookup_cons_ne {n ek : String} (h : ¬n = ek) (ev : List String)
    (rest : List (String × List String)) :
    usedLookup ((ek, ev) :: rest) n = usedLookup rest n := by
  have hb : (n == ek) = false := beq_eq_false_iff_ne.mpr h
  simp [usedLookup, List.lookup, hb]

theorem lookup_cons_ne {n ek : String} (h : ¬n = ek) (ev : List String)
    (rest : List (String × List String)) :
    List.lookup n ((ek, ev) :: rest) = List.lookup n rest := by
  have hb : (n == ek) = false := beq_eq_false_iff_ne.mpr h
  simp [List.lookup, hb]

theorem lookup_cons_self (ek : String) (ev : List String)
    (rest : List (String × List String)) :
    List.lookup ek ((ek, ev) :: rest) = some ev := by
  simp [List.lookup]

theorem usedLookup_usedInsert (used : List (String × List String)) (k s n : String) :
    usedLookup (usedInsert used k s) n =
      if n = k ∧ (used.lookup k).isSome then s :: usedLookup used n
      else usedLookup used n := by
  induction used with
  | nil => simp [usedInsert, usedLookup]
  | cons e rest ih =>
      obtain ⟨ek, ev⟩ := e
      unfold usedInsert at ih ⊢
      simp only [List.map_cons]
      by_cases hek : ek = k
      · subst hek
        rw [show (if ek = ek then (ek, s :: ev) else (ek, ev)) = (ek, s :: ev) from if_pos rfl]
        by_cases hn : n = ek
        · subst hn
          rw [usedLookup_cons_self, if_pos ⟨rfl, by rw [lookup_cons_self]; rfl⟩,
            usedLookup_cons_self]
        · rw [usedLookup_cons_ne hn, ih, if_neg (fun hc => hn hc.1),
            if_neg (fun hc => hn hc.1), usedLookup_cons_ne hn]
      · rw [show (if ek = k then (ek, s :: ev) else (ek, ev)) = (ek, ev) from if_neg hek]
        by_cases hn : n = ek
        · subst hn
          rw [usedLookup_cons_self, if_neg (fun hc => hek hc.1),
            usedLookup_cons_self]
        · rw [usedLookup_cons_ne hn, ih, lookup_cons_ne (fun hc => hek hc.symm),
            usedLookup_cons_ne hn]

theorem usedInsert_keys (used : List (String × List String)) (k s n : String) :
    ((usedInsert used k s).lookup n).isSome = (used.lookup n).isSome := by
  induction used with
  | nil => simp [usedInsert]
  | cons e rest ih =>
      obtain ⟨ek, ev⟩ := e
      unfold usedInsert at ih ⊢
      simp only [List.map_cons]
      by_cases hek : ek = k
      · subst hek
        rw [show (if ek = ek then (ek, s :: ev) else (ek, ev)) = (ek, s :: ev) from if_pos rfl]
        by_cases hn : n = ek
        · subst hn
          rw [lookup_cons_self, lookup_cons_self]
          rfl
        · rw [lookup_cons_ne hn, lookup_cons_ne hn, ih]
      · rw [show (if ek = k then (ek, s :: ev) else (ek, ev)) = (ek, ev) from if_neg hek]
        by_cases hn : n = ek
        · subst hn
          rw [lookup_cons_self, lookup_cons_self]
        · rw [lookup_cons_ne hn, lookup_cons_ne hn, ih]

/-- A successfully pin-validated attachment list has only parseable
pinned addresses. -/
theorem validateServiceNets_pin_valid {networks : List (String × NetworkConfig)}
    {svcName : String} {atts : List (String × Option ServiceNetworkConfig)}
    {used : List (String × List String)}
    {atts' : List (String × Option ServiceNetworkConfig)}
    {used' : List (String × List String)}
    (h : validateServiceNets networks svcName atts used = .ok (atts', used')) :
    ∀ kv ∈ atts, ∀ att, (kv : String × Option ServiceNetworkConfig).2 = some att →
      ¬att.ipv4Address = "" → ∃ ip, parseIPv4 att.ipv4Address = some ip := by
  induction atts generalizing used atts' used' with
  | nil => simp
  | cons hd rest ih =>
      obtain ⟨name, att0⟩ := hd
      unfold validateServiceNets at h
      by_cases hn : (List.lookup name networks).isNone
      · rw [if_pos hn] at h
        simp at h
      · rw [if_neg hn] at h
        simp only [] at h
        intro kv hkv att hatt hpin
        rcases List.mem_cons.mp hkv with rfl | hkv
        · simp at hatt
          have hgd : att0.getD { ipv4Address := "" } = att := by
            rw [hatt]
            rfl
          rw [hgd, if_neg hpin] at h
          rcases hip : parseIPv4 att.ipv4Address with _ | ip <;> rw [hip] at h
          · simp at h
          · exact ⟨ip, rfl⟩
        · by_cases hemp : (att0.getD { ipv4Address := "" }).ipv4Address = ""
          · rw [if_pos hemp] at h
            rcases hr : validateServiceNets networks svcName rest used with e | ⟨r', u'⟩ <;>
              rw [hr] at h
            · simp at h
            · exact ih hr kv hkv att hatt hpin
          · rw [if_neg hemp] at h
            rcases hip : parseIPv4 (att0.getD { ipv4Address := "" }).ipv4Address with _ | ip <;>
              rw [hip] at h <;> simp only [] at h
            · simp at h
            · by_cases hused : (usedLookup used name).contains (ipv4ToString ip)
              · rw [if_pos hused] at h
                simp at h
              · rw [if_neg hused] at h
                rcases hr : validateServiceNets networks svcName rest
                    (usedInsert used name (ipv4ToString ip)) with e | ⟨r', u'⟩ <;> rw [hr] at h
                · simp at h
                · exact ih hr kv hkv att hatt hpin

/-- C2 counterexample: a pin far outside the attached network's
10.0.0.0/24 subnet passes validation — subnet membership of pinned
addresses is never checked. -/
theorem c2_subnet_not_checked_cex :
    validate (.ok "kvm") (.ok "x86_64") pinProject = .ok pinProjectOut ∧
    parseIPv4 "192.168.1.1" = some 3232235777 ∧
    parseCIDR "10.0.0.0/24" = some (167772160, 24) ∧
    cidrContains (maskFloor 167772160 24) 24 3232235777 = false :=
  ⟨rfl, rfl, rfl, rfl⟩

/-- If the scan condition fails somewhere within the step budget, the
loop's result fails the scan condition (the loop exits properly). -/
theorem allocLoop_result (contains used : Nat → Bool) :
    ∀ (fuel : Nat) (ip : Nat),
      (∃ t < fuel, (contains (increaseIP^[t] ip) && used (increaseIP^[t] ip)) = false) →
      (contains (allocLoop contains used fuel ip) &&
        used (allocLoop contains used fuel ip)) = false := by
  intro fuel
  induction fuel with
  | zero =>
      intro ip ⟨t, ht, _⟩
      omega
  | succ fuel ih =>
      intro ip ⟨t, ht, hcond⟩
      unfold allocLoop
      rcases hc : contains ip && used ip with _ | _
      · simp only [hc, if_false, Bool.false_eq_true]
      · simp only [hc, if_true]
        rcases t with _ | t'
        · rw [Function.iterate_zero_apply] at hcond
          rw [hc] at hcond
          simp at hcond
        · rw [Function.iterate_succ_apply] at hcond
          exact ih (increaseIP ip) ⟨t', by omega, hcond⟩

theorem iterate_increaseIP {ip : Nat} (hip : ip < 2 ^ 32) (t : Nat) :
    increaseIP^[t] ip = (ip + t) % 2 ^ 32 := by
  induction t generalizing ip with
  | zero =>
      simp only [Function.iterate_zero_apply]
      omega
  | succ t ih =>
      rw [Function.iterate_succ_apply, ih (by unfold increaseIP; exact Nat.mod_lt _ (by norm_num))]
      unfold increaseIP
      omega

/-- A claimed-address list shorter than the address space misses some
address. -/
theorem exists_unused (l : List String) (hlen : l.length < 2 ^ 32) :
    ∃ j < 2 ^ 32, l.contains (ipv4ToString j) = false := by
  by_contra hcon
  push_neg at hcon
  have hmem : ∀ j ∈ Finset.range (2 ^ 32), ipv4ToString j ∈ l.toFinset := by
    intro j hj
    rw [List.mem_toFinset]
    have h1 := hcon j (Finset.mem_range.mp hj)
    rcases hc : l.contains (ipv4ToString j) with _ | _
    · exact absurd hc h1
    · simpa using hc
  have hinj : Set.InjOn ipv4ToString ↑(Finset.range (2 ^ 32)) := by
    intro a ha b hb he
    exact ipv4ToString_inj (by simpa using ha) (by simpa using hb) he
  have h1 := Finset.card_le_card_of_injOn ipv4ToString hmem hinj
  have h2 := l.toFinset_card_le
  simp [Finset.card_range] at h1
  omega

/-- The platform-defaulting pass does not touch service networks. -/
theorem defaultPlatforms_networks {hp ha : Except String String}
    {svcs svcs1 : List ServiceConfig} (h : defaultPlatforms hp ha svcs = .ok svcs1) :
    svcs1.map ServiceConfig.networks = svcs.map ServiceConfig.networks := by
  induction svcs generalizing svcs1 with
  | nil =>
      simp only [defaultPlatforms] at h
      simp only [Except.ok.injEq] at h
      subst h
      rfl
  | cons s rest ih =>
      unfold defaultPlatforms at h
      by_cases hplat : s.platform = ""
      · rw [if_pos hplat] at h
        rcases hhp : hp with e | hpv <;> subst hhp
        · simp only [] at h
          simp at h
        · rcases hha : ha with e | hav <;> subst hha <;> simp only [] at h
          · simp at h
          · rcases hr : defaultPlatforms (Except.ok hpv) (Except.ok hav) rest with e | rest1 <;>
              rw [hr] at h
            · simp at h
            · simp only [Except.ok.injEq] at h
              subst h
              simp [ih hr]
      · rw [if_neg hplat] at h
        rcases hr : defaultPlatforms hp ha rest with e | rest1 <;> rw [hr] at h
        · simp at h
        · simp only [Except.ok.injEq] at h
          subst h
          simp [ih hr]

/-- The pinned-address pass changes the key set of no network's
used-address entry. -/
theorem validateServiceNets_keys {networks : List (String × NetworkConfig)}
    {svcName : String} {atts : List (String × Option ServiceNetworkConfig)}
    {used : List (String × List String)}
    {atts' : List (String × Option ServiceNetworkConfig)}
    {used' : List (String × List String)}
    (h : validateServiceNets networks svcName atts used = .ok (atts', used')) :
    ∀ n, (used'.lookup n).isSome = (used.lookup n).isSome := by
  induction atts generalizing used atts' used' with
  | nil =>
      unfold validateServiceNets at h
      simp at h
      obtain ⟨-, h2⟩ := h
      subst h2
      intro n
      rfl
  | cons hd rest ih =>
      obtain ⟨name, att0⟩ := hd
      unfold validateServiceNets at h
      by_cases hn : (List.lookup name networks).isNone
      · rw [if_pos hn] at h
        simp at h
      · rw [if_neg hn] at h
        simp only [] at h
        by_cases hemp : (att0.getD { ipv4Address := "" }).ipv4Address = ""
        · rw [if_pos hemp] at h
          rcases hr : validateServiceNets networks svcName rest used with e | ⟨r', u'⟩ <;>
            rw [hr] at h
          · simp at h
          · simp only [Except.ok.injEq, Prod.mk.injEq] at h
            obtain ⟨-, h2⟩ := h
            subst h2
            exact ih hr
        · rw [if_neg hemp] at h
          rcases hip : parseIPv4 (att0.getD { ipv4Address := "" }).ipv4Address with _ | ip <;>
            rw [hip] at h <;> simp only [] at h
          · simp at h
          · by_cases hused : (usedLookup used name).contains (ipv4ToString ip)
            · rw [if_pos hused] at h
              simp at h
            · rw [if_neg hused] at h
              rcases hr : validateServiceNets networks svcName rest
                  (usedInsert used name (ipv4ToString ip)) with e | ⟨r', u'⟩ <;> rw [hr] at h
              · simp at h
              · simp only [Except.ok.injEq, Prod.mk.injEq] at h
                obtain ⟨-, h2⟩ := h
                subst h2
                intro n
                rw [ih hr n, usedInsert_keys]

/-- With the standard fuel, a scan over a claimed-list shorter than the
address space exits properly: the returned address is outside the
subnet or unclaimed. -/
theorem allocLoop_exit (contains : Nat → Bool) (l : List String) {base : Nat}
    (hb : base < 2 ^ 32) (hl : l.length < 2 ^ 32) :
    (contains (allocLoop contains (fun j => l.contains (ipv4ToString j)) fuel32 base) &&
      l.contains (ipv4ToString
        (allocLoop contains (fun j => l.contains (ipv4ToString j)) fuel32 base))) = false := by
  apply allocLoop_result
  obtain ⟨j, hj, hjc⟩ := exists_unused l hl
  refine ⟨(j + 2 ^ 32 - base) % 2 ^ 32, ?_, ?_⟩
  · have h1 : (j + 2 ^ 32 - base) % 2 ^ 32 < 2 ^ 32 := Nat.mod_lt _ (by norm_num)
    unfold fuel32
    omega
  · rw [iterate_increaseIP hb]
    have he : (base + (j + 2 ^ 32 - base) % 2 ^ 32) % 2 ^ 32 = j := by omega
    rw [he, hjc]
    simp

/-- Claiming an address extends a network's used-address list by at
most one entry. -/
theorem usedLookup_usedInsert_suffix (used : List (String × List String)) (k s n : String) :
    ∃ l, usedLookup (usedInsert used k s) n = l ++ usedLookup used n ∧ l.length ≤ 1 := by
  rw [usedLookup_usedInsert]
  by_cases h : n = k ∧ (used.lookup k).isSome
  · exact ⟨[s], by rw [if_pos h]; rfl, by simp⟩
  · exact ⟨[], by rw [if_neg h]; rfl, by simp⟩

/-- The allocation pass over one service's attachments: keys are kept,
pinned attachments are untouched, each unpinned attachment receives an
address unclaimed in the pass's input table, and the table only
grows. -/
theorem assignService_spec {networks : List (String × NetworkConfig)} :
    ∀ (atts : List (String × Option ServiceNetworkConfig))
      (used : List (String × List String)) atts' used',
      assignService networks atts used = .ok (atts', used') →
      (∀ n, (usedLookup used n).length + atts.length < 2 ^ 32) →
      List.Forall₂ (assignedFresh used) atts atts' ∧
        ∀ n, ∃ l, usedLookup used' n = l ++ usedLookup used n ∧ l.length ≤ atts.length := by
  intro atts
  induction atts with
  | nil =>
      intro used atts' used' h hsmall
      simp only [assignService] at h
      simp only [Except.ok.injEq, Prod.mk.injEq] at h
      obtain ⟨h1, h2⟩ := h
      subst h1
      subst h2
      exact ⟨.nil, fun n => ⟨[], rfl, by simp⟩⟩
  | cons hd rest ih =>
      obtain ⟨name, att⟩ := hd
      intro used atts' used' h hsmall
      have hsmall1 : ∀ n, (usedLookup used n).length + rest.length < 2 ^ 32 := by
        intro n
        have h2 := hsmall n
        simp only [List.length_cons] at h2
        omega
      unfold assignService at h
      rcases att with _ | cfg
      · simp only [] at h
        rcases hr : assignService networks rest used with e | ⟨r', u'⟩ <;> rw [hr] at h
        · simp at h
        · simp only [Except.ok.injEq, Prod.mk.injEq] at h
          obtain ⟨h1, h2⟩ := h
          subst h1
          subst h2
          obtain ⟨hf, hmono⟩ := ih used r' u' hr hsmall1
          refine ⟨.cons ⟨rfl, ?_, ?_⟩ hf, ?_⟩
          · intro c hc
            exact absurd hc (by simp)
          · intro c hc
            exact absurd hc (by simp)
          · intro n
            obtain ⟨l, hl, hlen⟩ := hmono n
            exact ⟨l, hl, by simp only [List.length_cons]; omega⟩
      · simp only [] at h
        by_cases hemp : cfg.ipv4Address = ""
        · rw [if_pos hemp] at h
          rcases hcfg0 : ((networks.lookup name).getD zeroNetworkConfig).ipam.config
              with _ | ⟨cfg0, cfgs⟩ <;> rw [hcfg0] at h <;> simp only [] at h
          · simp at h
          · rcases hcidr : parseCIDR cfg0.subnet with _ | ⟨addr, p⟩ <;>
              rw [hcidr] at h <;> simp only [] at h
            · simp at h
            · have haddr : addr < 2 ^ 32 := (parseCIDR_inv hcidr).2.2.1
              have hble : maskFloor addr p ≤ addr := by
                unfold maskFloor
                exact Nat.div_mul_le_self _ _
              have hb : maskFloor addr p < 2 ^ 32 := lt_of_le_of_lt hble haddr
              set ipv := allocLoop (cidrContains (maskFloor addr p) p)
                (fun j => (usedLookup used name).contains (ipv4ToString j)) fuel32
                (maskFloor addr p) with hipv
              by_cases hcont : cidrContains (maskFloor addr p) p ipv = true
              · rw [if_pos hcont] at h
                rcases hr : assignService networks rest
                    (usedInsert used name (ipv4ToString ipv)) with e | ⟨r', u'⟩ <;> rw [hr] at h
                · simp at h
                · simp only [Except.ok.injEq, Prod.mk.injEq] at h
                  obtain ⟨h1, h2⟩ := h
                  subst h1
                  subst h2
                  have hsmall2 : ∀ n,
                      (usedLookup (usedInsert used name (ipv4ToString ipv)) n).length +
                        rest.length < 2 ^ 32 := by
                    intro n
                    have h2 := hsmall n
                    simp only [List.length_cons] at h2
                    rw [usedLookup_usedInsert]
                    by_cases hcnd : n = name ∧ (used.lookup name).isSome
                    · rw [if_pos hcnd]
                      have h3 := hsmall name
                      simp only [List.length_cons] at h3
                      rcases hcnd with ⟨rfl, -⟩
                      simp only [List.length_cons]
                      omega
                    · rw [if_neg hcnd]
                      omega
                  obtain ⟨hf, hmono⟩ := ih _ r' u' hr hsmall2
                  have hlen : (usedLookup used name).length < 2 ^ 32 := by
                    have h3 := hsmall name
                    omega
                  have hexit := allocLoop_exit (cidrContains (maskFloor addr p) p)
                    (usedLookup used name) hb hlen
                  rw [← hipv, hcont] at hexit
                  simp only [Bool.true_and] at hexit
                  have hfresh : ipv4ToString ipv ∉ usedLookup used name := by
                    simpa using hexit
                  refine ⟨.cons ⟨rfl, ?_, ?_⟩ ?_, ?_⟩
                  · intro c hc hne
                    cases hc
                    exact absurd hemp hne
                  · intro c hc hce
                    cases hc
                    exact ⟨ipv4ToString ipv, rfl, hfresh⟩
                  · refine hf.imp ?_
                    intro kv kv' hkv
                    obtain ⟨ha1, ha2, ha3⟩ := hkv
                    refine ⟨ha1, ha2, ?_⟩
                    intro c hc hce
                    obtain ⟨y, hy1, hy2⟩ := ha3 c hc hce
                    refine ⟨y, hy1, ?_⟩
                    intro hmem
                    apply hy2
                    obtain ⟨l, hl, -⟩ :=
                      usedLookup_usedInsert_suffix used name (ipv4ToString ipv) kv.1
                    rw [hl]
                    exact List.mem_append.mpr (Or.inr hmem)
                  · intro n
                    obtain ⟨l1, hl1, hlen1⟩ := hmono n
                    obtain ⟨l2, hl2, hlen2⟩ :=
                      usedLookup_usedInsert_suffix used name (ipv4ToString ipv) n
                    refine ⟨l1 ++ l2, by rw [hl1, hl2, List.append_assoc], ?_⟩
                    simp only [List.length_append, List.length_cons]
                    omega
              · rw [if_neg hcont] at h
                simp at h
        · rw [if_neg hemp] at h
          rcases hr : assignService networks rest used with e | ⟨r', u'⟩ <;> rw [hr] at h
          · simp at h
          · simp only [Except.ok.injEq, Prod.mk.injEq] at h
            obtain ⟨h1, h2⟩ := h
            subst h1
            subst h2
            obtain ⟨hf, hmono⟩ := ih used r' u' hr hsmall1
            refine ⟨.cons ⟨rfl, ?_, ?_⟩ hf, ?_⟩
            · intro c hc hne
              rfl
            · intro c hc hce
              cases hc
              exact absurd hce hemp
            · intro n
              obtain ⟨l, hl, hlen⟩ := hmono n
              exact ⟨l, hl, by simp only [List.length_cons]; omega⟩

theorem attCount_cons (s : ServiceConfig) (rest : List ServiceConfig) :
    attCount (s :: rest) = (s.networks.getD []).length + attCount rest := by
  simp [attCount]

/-- Freshness with respect to a grown table implies freshness with
respect to the original table. -/
theorem svcAssignedFresh_mono {used used1 : List (String × List String)}
    (hsub : ∀ n, ∃ l, usedLookup used1 n = l ++ usedLookup used n) {s s' : ServiceConfig}
    (h : svcAssignedFresh used1 s s') : svcAssignedFresh used s s' := by
  unfold svcAssignedFresh at h ⊢
  rcases hs : s.networks with _ | atts <;> rcases hs2 : s'.networks with _ | atts' <;>
    rw [hs, hs2] at h <;> try exact h
  refine h.imp ?_
  intro kv kv' hkv
  obtain ⟨h1, h2, h3⟩ := hkv
  refine ⟨h1, h2, ?_⟩
  intro c hc hce
  obtain ⟨y, hy1, hy2⟩ := h3 c hc hce
  refine ⟨y, hy1, fun hmem => hy2 ?_⟩
  obtain ⟨l, hl⟩ := hsub kv.1
  rw [hl]
  exact List.mem_append.mpr (Or.inr hmem)

/-- The allocation pass over all services: pinned attachments are
untouched, each unpinned attachment receives an address unclaimed in
the pass's input table, and the table only grows. -/
theorem assignAddresses_spec {networks : List (String × NetworkConfig)} :
    ∀ (svcs : List ServiceConfig) (used : List (String × List String)) svcs' used',
      assignAddresses networks svcs used = .ok (svcs', used') →
      (∀ n, (usedLookup used n).length + attCount svcs < 2 ^ 32) →
      List.Forall₂ (svcAssignedFresh used) svcs svcs' ∧
        ∀ n, ∃ l, usedLookup used' n = l ++ usedLookup used n ∧ l.length ≤ attCount svcs := by
  intro svcs
  induction svcs with
  | nil =>
      intro used svcs' used' h hsmall
      simp only [assignAddresses] at h
      simp only [Except.ok.injEq, Prod.mk.injEq] at h
      obtain ⟨h1, h2⟩ := h
      subst h1
      subst h2
      exact ⟨.nil, fun n => ⟨[], rfl, by simp⟩⟩
  | cons svc rest ih =>
      intro used svcs' used' h hsmall
      unfold assignAddresses at h
      rcases hnets : svc.networks with _ | atts <;> rw [hnets] at h <;> simp only [] at h
      · rcases hr : assignAddresses networks rest used with e | ⟨r', u'⟩ <;> rw [hr] at h
        · simp at h
        · simp only [Except.ok.injEq, Prod.mk.injEq] at h
          obtain ⟨h1, h2⟩ := h
          subst h1
          subst h2
          have hsmall1 : ∀ n, (usedLookup used n).length + attCount rest < 2 ^ 32 := by
            intro n
            have h3 := hsmall n
            rw [attCount_cons, hnets] at h3
            simp only [Option.getD_none, List.length_nil] at h3
            omega
          obtain ⟨hf, hmono⟩ := ih used r' u' hr hsmall1
          refine ⟨.cons ?_ hf, ?_⟩
          · unfold svcAssignedFresh
            rw [hnets]
          · intro n
            obtain ⟨l, hl, hlen⟩ := hmono n
            refine ⟨l, hl, ?_⟩
            rw [attCount_cons, hnets]
            simp only [Option.getD_none, List.length_nil]
            omega
      · rcases hsv : assignService networks atts used with e | ⟨atts', used1⟩ <;>
          rw [hsv] at h <;> simp only [] at h
        · simp at h
        · rcases hr : assignAddresses networks rest used1 with e | ⟨r', u'⟩ <;> rw [hr] at h
          · simp at h
          · simp only [Except.ok.injEq, Prod.mk.injEq] at h
            obtain ⟨h1, h2⟩ := h
            subst h1
            subst h2
            have hsmallA : ∀ n, (usedLookup used n).length + atts.length < 2 ^ 32 := by
              intro n
              have h3 := hsmall n
              rw [attCount_cons, hnets] at h3
              simp only [Option.getD_some] at h3
              omega
            obtain ⟨hfA, hmonoA⟩ := assignService_spec atts used atts' used1 hsv hsmallA
            have hsmallR : ∀ n, (usedLookup used1 n).length + attCount rest < 2 ^ 32 := by
              intro n
              obtain ⟨l, hl, hlen⟩ := hmonoA n
              have h3 := hsmall n
              rw [attCount_cons, hnets] at h3
              simp only [Option.getD_some] at h3
              rw [hl]
              simp only [List.length_append]
              omega
            obtain ⟨hfR, hmonoR⟩ := ih used1 r' u' hr hsmallR
            have hsub : ∀ n, ∃ l, usedLookup used1 n = l ++ usedLookup used n :=
              fun n => (hmonoA n).elim fun l hl => ⟨l, hl.1⟩
            refine ⟨.cons ?_ ?_, ?_⟩
            · unfold svcAssignedFresh
              rw [hnets]
              exact hfA
            · exact hfR.imp fun _ _ hkv => svcAssignedFresh_mono hsub hkv
            · intro n
              obtain ⟨l1, hl1, hlen1⟩ := hmonoR n
              obtain ⟨l2, hl2, hlen2⟩ := hmonoA n
              refine ⟨l1 ++ l2, by rw [hl1, hl2, List.append_assoc], ?_⟩
              rw [attCount_cons, hnets]
              simp only [Option.getD_some, List.length_append]
              omega

/-- The pinned-address pass over one service's attachments: each
network's used-address entry gains exactly that service's pins on it
(in canonical form, newest first), the pins are pairwise distinct, and
none of them was already claimed — the duplicate check is the only
check performed against the table. -/
theorem validateServiceNets_pins_char {networks : List (String × NetworkConfig)}
    {svcName : String} :
    ∀ (atts : List (String × Option ServiceNetworkConfig))
      (used : List (String × List String)) atts' used',
      validateServiceNets networks svcName atts used = .ok (atts', used') →
      (∀ m, (List.lookup m networks).isSome = true → (List.lookup m used).isSome = true) →
      ∀ n, usedLookup used' n = (pinsOfAtts n atts).reverse ++ usedLookup used n ∧
        (pinsOfAtts n atts).Nodup ∧
        ∀ s ∈ pinsOfAtts n atts, s ∉ usedLookup used n := by
  intro atts
  induction atts with
  | nil =>
      intro used atts' used' h hkeys n
      simp only [validateServiceNets] at h
      simp only [Except.ok.injEq, Prod.mk.injEq] at h
      obtain ⟨h1, h2⟩ := h
      subst h2
      simp [pinsOfAtts]
  | cons hd rest ih =>
      obtain ⟨name, att0⟩ := hd
      intro used atts' used' h hkeys n
      unfold validateServiceNets at h
      by_cases hn : (List.lookup name networks).isNone
      · rw [if_pos hn] at h
        simp at h
      · rw [if_neg hn] at h
        simp only [] at h
        have hnameS : (List.lookup name networks).isSome = true := by
          rcases hq : List.lookup name networks with _ | v
          · rw [hq] at hn
            simp at hn
          · rfl
        by_cases hemp : (att0.getD { ipv4Address := "" }).ipv4Address = ""
        · rw [if_pos hemp] at h
          rcases hr : validateServiceNets networks svcName rest used with e | ⟨r', u'⟩ <;>
            rw [hr] at h
          · simp at h
          · simp only [Except.ok.injEq, Prod.mk.injEq] at h
            obtain ⟨-, h2⟩ := h
            subst h2
            have hpins : pinsOfAtts n ((name, att0) :: rest) = pinsOfAtts n rest := by
              unfold pinsOfAtts
              rw [List.filterMap_cons]
              rcases att0 with _ | att
              · rfl
              · have hae : att.ipv4Address = "" := hemp
                simp [hae]
            rw [hpins]
            exact ih used r' u' hr hkeys n
        · rw [if_neg hemp] at h
          rcases hip : parseIPv4 (att0.getD { ipv4Address := "" }).ipv4Address with _ | ip <;>
            rw [hip] at h <;> simp only [] at h
          · simp at h
          · by_cases hused : (usedLookup used name).contains (ipv4ToString ip) = true
            · rw [if_pos hused] at h
              simp at h
            · rw [if_neg hused] at h
              rcases hr : validateServiceNets networks svcName rest
                  (usedInsert used name (ipv4ToString ip)) with e | ⟨r', u'⟩ <;> rw [hr] at h
              · simp at h
              · simp only [Except.ok.injEq, Prod.mk.injEq] at h
                obtain ⟨-, h2⟩ := h
                subst h2
                rcases att0 with _ | att
                · exact absurd rfl hemp
                simp only [Option.getD_some] at hemp hip
                have hkeys2 : ∀ m, (List.lookup m networks).isSome = true →
                    (List.lookup m (usedInsert used name (ipv4ToString ip))).isSome = true := by
                  intro m hm
                  rw [usedInsert_keys]
                  exact hkeys m hm
                obtain ⟨ihEq, ihNodup, ihFresh⟩ := ih _ r' u' hr hkeys2 n
                have hkeyName : (List.lookup name used).isSome = true := hkeys name hnameS
                by_cases hnm : name = n
                · have hpins : pinsOfAtts n ((name, some att) :: rest) =
                      ipv4ToString ip :: pinsOfAtts n rest := by
                    unfold pinsOfAtts
                    rw [List.filterMap_cons]
                    simp [hnm, hemp, hip]
                  have hins : usedLookup (usedInsert used name (ipv4ToString ip)) n =
                      ipv4ToString ip :: usedLookup used n := by
                    rw [usedLookup_usedInsert, if_pos ⟨hnm.symm, hkeyName⟩]
                  subst hnm
                  rw [hins] at ihEq ihFresh
                  have hsnotin : ipv4ToString ip ∉ pinsOfAtts name rest := by
                    intro hmem
                    exact ihFresh _ hmem (List.mem_cons_self _ _)
                  refine ⟨?_, ?_, ?_⟩
                  · rw [hpins, ihEq]
                    simp [List.reverse_cons, List.append_assoc]
                  · rw [hpins]
                    exact List.nodup_cons.mpr ⟨hsnotin, ihNodup⟩
                  · rw [hpins]
                    intro x hx
                    rcases List.mem_cons.mp hx with rfl | hx
                    · intro hmem
                      apply hused
                      simpa using hmem
                    · intro hmem
                      exact ihFresh x hx (List.mem_cons_of_mem _ hmem)
                · have hpins : pinsOfAtts n ((name, some att) :: rest) = pinsOfAtts n rest := by
                    unfold pinsOfAtts
                    rw [List.filterMap_cons]
                    simp [hnm]
                  have hins : usedLookup (usedInsert used name (ipv4ToString ip)) n =
                      usedLookup used n := by
                    rw [usedLookup_usedInsert, if_neg (fun hc => hnm hc.1.symm)]
                  rw [hins] at ihEq ihFresh
                  rw [hpins]
                  exact ⟨ihEq, ihNodup, ihFresh⟩

/-- The pinned-address pass over all services: each network's
used-address entry gains exactly the pins claimed on it across the
project, the pins are pairwise distinct per network, and none collides
with an entry of the incoming table (gateway and base strings
included). -/
theorem validatePins_pins_char {networks : List (String × NetworkConfig)} :
    ∀ (svcs : List ServiceConfig) (used : List (String × List String)) svcs' used',
      validatePins networks svcs used = .ok (svcs', used') →
      (∀ m, (List.lookup m networks).isSome = true → (List.lookup m used).isSome = true) →
      ∀ n, usedLookup used' n = (pinsOfSvcs n svcs).reverse ++ usedLookup used n ∧
        (pinsOfSvcs n svcs).Nodup ∧
        ∀ s ∈ pinsOfSvcs n svcs, s ∉ usedLookup used n := by
  intro svcs
  induction svcs with
  | nil =>
      intro used svcs' used' h hkeys n
      simp only [validatePins] at h
      simp only [Except.ok.injEq, Prod.mk.injEq] at h
      obtain ⟨h1, h2⟩ := h
      subst h2
      simp [pinsOfSvcs]
  | cons svc rest ih =>
      intro used svcs' used' h hkeys n
      unfold validatePins at h
      rcases hnets : svc.networks with _ | atts <;> rw [hnets] at h <;> simp only [] at h
      · rcases hr : validatePins networks rest used with e | ⟨r', u'⟩ <;> rw [hr] at h
        · simp at h
        · simp only [Except.ok.injEq, Prod.mk.injEq] at h
          obtain ⟨-, h2⟩ := h
          subst h2
          have hpins : pinsOfSvcs n (svc :: rest) = pinsOfSvcs n rest := by
            simp [pinsOfSvcs, hnets, pinsOfAtts]
          rw [hpins]
          exact ih used r' u' hr hkeys n
      · rcases hsv : validateServiceNets networks svc.name
            (atts.filter (fun e => e.1 ≠ "default")) used with e | ⟨atts', used1⟩ <;>
          rw [hsv] at h <;> simp only [] at h
        · simp at h
        · rcases hr : validatePins networks rest used1 with e | ⟨r', u'⟩ <;> rw [hr] at h
          · simp at h
          · simp only [Except.ok.injEq, Prod.mk.injEq] at h
            obtain ⟨-, h2⟩ := h
            subst h2
            have hkeys1 : ∀ m, (List.lookup m networks).isSome = true →
                (List.lookup m used1).isSome = true := by
              intro m hm
              rw [validateServiceNets_keys hsv m]
              exact hkeys m hm
            obtain ⟨hEqA, hNodA, hFrA⟩ :=
              validateServiceNets_pins_char _ used atts' used1 hsv hkeys n
            obtain ⟨hEqR, hNodR, hFrR⟩ := ih used1 r' u' hr hkeys1 n
            have hpins : pinsOfSvcs n (svc :: rest) =
                pinsOfAtts n (atts.filter (fun e => e.1 ≠ "default")) ++
                  pinsOfSvcs n rest := by
              simp [pinsOfSvcs, hnets]
            rw [hpins]
            refine ⟨?_, ?_, ?_⟩
            · rw [hEqR, hEqA]
              simp [List.reverse_append, List.append_assoc]
            · refine List.nodup_append.mpr ⟨hNodA, hNodR, ?_⟩
              intro x hxA hxR
              apply hFrR x hxR
              rw [hEqA]
              exact List.mem_append.mpr (Or.inl (List.mem_reverse.mpr hxA))
            · intro x hx
              rcases List.mem_append.mp hx with hxA | hxR
              · exact hFrA x hxA
              · intro hmem
                apply hFrR x hxR
                rw [hEqA]
                exact List.mem_append.mpr (Or.inr hmem)

/-- C2 (amended): a user-pinned ipv4 address is checked for IP syntax
and, in canonical string form, against the addresses already claimed on
that network (gateway string, base-address string, earlier pins) — no
subnet-membership check is performed on pins; every validated pin is
claimed in the used-address table before the allocation pass runs, and
the allocation pass only assigns addresses unclaimed in its input
table, so a planner-assigned address never equals a pinned one. -/
theorem c2_pins_amended :
    (∀ (networks : List (String × NetworkConfig)) (svcName : String)
      (atts : List (String × Option ServiceNetworkConfig)) used atts' used',
      validateServiceNets networks svcName atts used = .ok (atts', used') →
      ∀ kv ∈ atts, ∀ att, (kv : String × Option ServiceNetworkConfig).2 = some att →
        ¬att.ipv4Address = "" → ∃ ip, parseIPv4 att.ipv4Address = some ip) ∧
    (∀ (networks : List (String × NetworkConfig)) (svcs : List ServiceConfig)
      used svcs' used',
      validatePins networks svcs used = .ok (svcs', used') →
      (∀ m, (List.lookup m networks).isSome = true → (List.lookup m used).isSome = true) →
      ∀ n, usedLookup used' n = (pinsOfSvcs n svcs).reverse ++ usedLookup used n ∧
        (pinsOfSvcs n svcs).Nodup ∧
        ∀ s ∈ pinsOfSvcs n svcs, s ∉ usedLookup used n) ∧
    (∀ (networks : List (String × NetworkConfig)) (svcs : List ServiceConfig)
      used svcs1 used1 svcs2 used2,
      validatePins networks svcs used = .ok (svcs1, used1) →
      (∀ m, (List.lookup m networks).isSome = true → (List.lookup m used).isSome = true) →
      (∀ n, (usedLookup used1 n).length + attCount svcs1 < 2 ^ 32) →
      assignAddresses networks svcs1 used1 = .ok (svcs2, used2) →
      List.Forall₂ (fun s s' =>
        ∀ a0 a1, ServiceConfig.networks s = some a0 → ServiceConfig.networks s' = some a1 →
          List.Forall₂ (fun kv kv' =>
            ∀ c, (kv : String × Option ServiceNetworkConfig).2 = some c →
              c.ipv4Address = "" →
              ∃ y, (kv' : String × Option ServiceNetworkConfig).2 =
                  some { ipv4Address := y } ∧ y ∉ pinsOfSvcs kv.1 svcs) a0 a1)
        svcs1 svcs2) := by
  refine ⟨?_, ?_, ?_⟩
  · intro networks svcName atts used atts' used' h
    exact validateServiceNets_pin_valid h
  · intro networks svcs used svcs' used' h hkeys
    exact validatePins_pins_char svcs used svcs' used' h hkeys
  · intro networks svcs used svcs1 used1 svcs2 used2 hpins hkeys hsmall hassign
    obtain ⟨hf, -⟩ := assignAddresses_spec svcs1 used1 svcs2 used2 hassign hsmall
    refine hf.imp ?_
    intro s s' hss a0 a1 h0 h1
    unfold svcAssignedFresh at hss
    rw [h0, h1] at hss
    refine hss.imp ?_
    intro kv kv' hkv
    obtain ⟨-, -, h3⟩ := hkv
    intro c hc hce
    obtain ⟨y, hy1, hy2⟩ := h3 c hc hce
    refine ⟨y, hy1, ?_⟩
    intro hmem
    apply hy2
    obtain ⟨hEq, -, -⟩ := validatePins_pins_char svcs used svcs1 used1 hpins hkeys kv.1
    rw [hEq]
    exact List.mem_append.mpr (Or.inl (List.mem_reverse.mpr hmem))

/-- Witness for the amended C2 at a concrete pinned project: the pin
"192.168.1.1" is claimed into the network's used-address table (on top
of the gateway and base strings) by a successful pin pass. -/
theorem c2_pins_amended_witness :
    usedLookup [("n1", ["192.168.1.1", "10.0.0.7", "10.0.0.0"])] "n1" =
      (pinsOfSvcs "n1" [pinSvcOut]).reverse ++
        usedLookup [("n1", ["10.0.0.7", "10.0.0.0"])] "n1" :=
  (c2_pins_amended.2.1 [("n1", witGatewayNet)] [pinSvcOut]
    [("n1", ["10.0.0.7", "10.0.0.0"])] [pinSvcOut]
    [("n1", ["192.168.1.1", "10.0.0.7", "10.0.0.0"])] rfl
    (by
      intro m hm
      rcases hbe : m == "n1" with _ | _ <;>
        simp only [List.lookup, hbe] at hm ⊢ <;> simp at hm ⊢)
    "n1").1

/-! ## C1 — allocation counting -/

theorem hostSize_pos (p : Nat) : 0 < hostSize p := by
  unfold hostSize
  positivity

theorem hostSize_le31 {p : Nat} (hp : 1 ≤ p) : hostSize p ≤ 2 ^ 31 := by
  unfold hostSize
  exact Nat.pow_le_pow_right (by norm_num) (by omega)

theorem maskFloor_dvd (a p : Nat) : hostSize p ∣ maskFloor a p :=
  ⟨a / hostSize p, by unfold maskFloor; rw [Nat.mul_comm]⟩

theorem maskFloor_le (a p : Nat) : maskFloor a p ≤ a := by
  unfold maskFloor
  exact Nat.div_mul_le_self _ _

theorem maskFloor_add_le {a p : Nat} (hp32 : p ≤ 32) (ha : a < 2 ^ 32) :
    maskFloor a p + hostSize p ≤ 2 ^ 32 := by
  have hdvd32 : hostSize p ∣ 2 ^ 32 := by
    unfold hostSize
    exact pow_dvd_pow 2 (by omega)
  have hq : a / hostSize p < 2 ^ 32 / hostSize p := Nat.div_lt_div_of_lt_of_dvd hdvd32 ha
  have h1 : (a / hostSize p + 1) * hostSize p ≤ 2 ^ 32 / hostSize p * hostSize p :=
    Nat.mul_le_mul_right _ (by omega)
  rw [Nat.div_mul_cancel hdvd32] at h1
  unfold maskFloor
  calc maskFloor a p + hostSize p = (a / hostSize p + 1) * hostSize p := by
        unfold maskFloor
        rw [Nat.succ_mul]
    _ ≤ 2 ^ 32 := h1

/-- `IPNet.Contains` for an aligned base is interval membership. -/
theorem cidrContains_iff {base p ip : Nat} (hdvd : hostSize p ∣ base) :
    cidrContains base p ip = true ↔ base ≤ ip ∧ ip < base + hostSize p := by
  obtain ⟨k, hk⟩ := hdvd
  have hpos := hostSize_pos p
  unfold cidrContains maskFloor
  rw [beq_iff_eq]
  constructor
  · intro h
    constructor
    · rw [← h]
      exact Nat.div_mul_le_self _ _
    · calc ip = hostSize p * (ip / hostSize p) + ip % hostSize p := (Nat.div_add_mod _ _).symm
        _ < hostSize p * (ip / hostSize p) + hostSize p := by
            have := Nat.mod_lt ip hpos
            omega
        _ = ip / hostSize p * hostSize p + hostSize p := by rw [Nat.mul_comm]
        _ = base + hostSize p := by rw [h]
  · rintro ⟨h1, h2⟩
    have hq : ip / hostSize p = k := by
      apply Nat.le_antisymm
      · have hlt : ip < (k + 1) * hostSize p := by
          calc ip < base + hostSize p := h2
            _ = hostSize p * k + hostSize p := by rw [hk]
            _ = (k + 1) * hostSize p := by ring
        have := (Nat.div_lt_iff_lt_mul hpos).mpr hlt
        omega
      · rw [Nat.le_div_iff_mul_le hpos]
        calc k * hostSize p = hostSize p * k := Nat.mul_comm _ _
          _ = base := hk.symm
          _ ≤ ip := h1
    rw [hq, Nat.mul_comm, ← hk]

/-- The scan loop does not move off an address that already fails the
scan condition. -/
theorem allocLoop_noop {c u : Nat → Bool} {ip : Nat} (h : (c ip && u ip) = false) :
    ∀ fuel, allocLoop c u fuel ip = ip := by
  intro fuel
  cases fuel with
  | zero => rfl
  | succ f =>
      unfold allocLoop
      rw [h]
      simp

/-- First-fit: the scan starting inside the subnet returns the smallest
in-subnet address at or above the start that fails the used check. -/
theorem allocLoop_reach {u : Nat → Bool} {base p : Nat}
    (hdvd : hostSize p ∣ base) (hb2 : base + hostSize p ≤ 2 ^ 32) :
    ∀ (fuel s j : Nat), base ≤ s → s ≤ j → j < base + hostSize p →
      u j = false → (∀ x, s ≤ x → x < j → u x = true) →
      j - s < fuel →
      allocLoop (cidrContains base p) u fuel s = j := by
  intro fuel
  induction fuel with
  | zero =>
      intro s j _ _ _ _ _ hf
      omega
  | succ f ih =>
      intro s j hs hsj hjlt hufree hmin hf
      have hcont : cidrContains base p s = true :=
        (cidrContains_iff hdvd).mpr ⟨hs, by omega⟩
      by_cases hsx : s = j
      · subst hsx
        unfold allocLoop
        rw [hcont, hufree]
        simp
      · have hslt : s < j := lt_of_le_of_ne hsj hsx
        have hus : u s = true := hmin s le_rfl hslt
        have hinc : increaseIP s = s + 1 := by
          unfold increaseIP
          exact Nat.mod_eq_of_lt (by omega)
        unfold allocLoop
        rw [hcont, hus]
        simp only [Bool.and_self, if_true]
        rw [hinc]
        exact ih (s + 1) j (by omega) (by omega) hjlt hufree
          (fun x hx1 hx2 => hmin x (by omega) hx2) (by omega)

/-- Exhaustion: when every in-subnet address at or above the start is
claimed, the scan leaves the subnet. -/
theorem allocLoop_full {u : Nat → Bool} {base p : Nat}
    (hdvd : hostSize p ∣ base) (hp : 1 ≤ p) (hb2 : base + hostSize p ≤ 2 ^ 32) :
    ∀ (fuel s : Nat), base ≤ s → s < base + hostSize p →
      (∀ x, s ≤ x → x < base + hostSize p → u x = true) →
      base + hostSize p - s ≤ fuel →
      cidrContains base p (allocLoop (cidrContains base p) u fuel s) = false := by
  have hout : ∀ ip, ¬(base ≤ ip ∧ ip < base + hostSize p) →
      cidrContains base p ip = false := by
    intro ip hn
    rcases hcc : cidrContains base p ip with _ | _
    · rfl
    · exact absurd ((cidrContains_iff hdvd).mp hcc) hn
  intro fuel
  induction fuel with
  | zero =>
      intro s _ hslt _ hf
      omega
  | succ f ih =>
      intro s hs hslt hall hf
      have hcont : cidrContains base p s = true := (cidrContains_iff hdvd).mpr ⟨hs, hslt⟩
      have hus : u s = true := hall s le_rfl hslt
      unfold allocLoop
      rw [hcont, hus]
      simp only [Bool.and_self, if_true]
      by_cases hend : s + 1 = base + hostSize p
      · by_cases htop : base + hostSize p = 2 ^ 32
        · have hinc : increaseIP s = 0 := by
            unfold increaseIP
            rw [hend, htop]
            simp
          rw [hinc]
          have hbpos : 0 < base := by
            have := hostSize_le31 hp
            omega
          have hc0 : cidrContains base p 0 = false := hout 0 (by omega)
          rw [allocLoop_noop (by rw [hc0]; rfl) f]
          exact hc0
        · have hinc : increaseIP s = base + hostSize p := by
            unfold increaseIP
            rw [hend]
            exact Nat.mod_eq_of_lt (by omega)
          rw [hinc]
          have hce : cidrContains base p (base + hostSize p) = false := by
            have := hostSize_pos p
            exact hout _ (by omega)
          rw [allocLoop_noop (by rw [hce]; rfl) f]
          exact hce
      · have hinc : increaseIP s = s + 1 := by
          unfold increaseIP
          exact Nat.mod_eq_of_lt (by omega)
        rw [hinc]
        exact ih (s + 1) (by omega) (by omega)
          (fun x hx1 hx2 => hall x (by omega) hx2) (by omega)

theorem mem_freeAddrs {base p gv x : Nat} :
    x ∈ freeAddrs base p gv ↔ base + 1 ≤ x ∧ x < base + hostSize p ∧ x ≠ gv := by
  have hpos := hostSize_pos p
  unfold freeAddrs
  rw [List.mem_filter, List.mem_range'_1, bne_iff_ne]
  constructor
  · rintro ⟨⟨h1, h2⟩, h3⟩
    exact ⟨h1, by omega, h3⟩
  · rintro ⟨h1, h2, h3⟩
    exact ⟨⟨h1, by omega⟩, h3⟩

theorem pairwise_freeAddrs (base p gv : Nat) :
    (freeAddrs base p gv).Pairwise (· < ·) :=
  (List.pairwise_lt_range' _ _).filter _

theorem nodup_freeAddrs (base p gv : Nat) : (freeAddrs base p gv).Nodup :=
  (pairwise_freeAddrs base p gv).imp fun h => Nat.ne_of_lt h

/-- How many addresses the allocator can hand out: all host addresses
except the base, and except the gateway when it is a distinct in-subnet
address. -/
theorem length_freeAddrs {base p gv : Nat} (hgv1 : base ≤ gv)
    (hgv2 : gv < base + hostSize p) :
    (freeAddrs base p gv).length =
      if gv = base then hostSize p - 1 else hostSize p - 2 := by
  have hpos := hostSize_pos p
  by_cases hgb : gv = base
  · rw [if_pos hgb]
    unfold freeAddrs
    rw [List.filter_eq_self.mpr, List.length_range']
    intro a ha
    rw [List.mem_range'_1] at ha
    rw [bne_iff_ne]
    omega
  · rw [if_neg hgb]
    unfold freeAddrs
    have hnd : (List.range' (base + 1) (hostSize p - 1)).Nodup := List.nodup_range' _ _
    have hgm : gv ∈ List.range' (base + 1) (hostSize p - 1) := by
      rw [List.mem_range'_1]
      omega
    rw [← List.Nodup.erase_eq_filter hnd gv, List.length_erase_of_mem hgm,
      List.length_range']
    omega

theorem take_lt_getElem {l : List Nat} (hps : l.Pairwise (· < ·)) {i : Nat}
    (hi : i < l.length) {x : Nat} (hx : x ∈ l.take i) : x < l[i] := by
  obtain ⟨k, hk, hkx⟩ := List.mem_iff_getElem.mp hx
  rw [List.length_take] at hk
  have hki : k < i := lt_of_lt_of_le hk (min_le_left _ _)
  have hkl : k < l.length := lt_of_lt_of_le hk (min_le_right _ _)
  have hlt := List.pairwise_iff_getElem.mp hps k i hkl hi hki
  rw [List.getElem_take] at hkx
  omega

theorem mem_take_of_lt_getElem {l : List Nat} (hps : l.Pairwise (· < ·)) {i : Nat}
    (hi : i < l.length) {x : Nat} (hx : x ∈ l) (hlt : x < l[i]) : x ∈ l.take i := by
  obtain ⟨k, hk, hkx⟩ := List.mem_iff_getElem.mp hx
  have hki : k < i := by
    by_contra hge
    push_neg at hge
    rcases Nat.eq_or_lt_of_le hge with heq | hlt2
    · have h1 : l[k]? = some x := by rw [List.getElem?_eq_getElem hk, hkx]
      rw [← heq] at h1
      rw [List.getElem?_eq_getElem hi] at h1
      have := Option.some.inj h1
      omega
    · have := List.pairwise_iff_getElem.mp hps i k hi hk hlt2
      omega
  rw [List.mem_iff_getElem]
  refine ⟨k, ?_, ?_⟩
  · rw [List.length_take]
    exact lt_min hki hk
  · rw [List.getElem_take]
    exact hkx

/-- Membership in the canonical used-address string list corresponds to
value membership. -/
theorem contains_canon {taken : List Nat} {gv base j : Nat}
    (hT : ∀ x ∈ taken, x < 2 ^ 32) (hg : gv < 2 ^ 32) (hb : base < 2 ^ 32)
    (hj : j < 2 ^ 32) :
    ((taken.reverse.map ipv4ToString ++ [ipv4ToString gv, ipv4ToString base]).contains
      (ipv4ToString j) = true) ↔ (j ∈ taken ∨ j = gv ∨ j = base) := by
  constructor
  · intro h
    have hmem : ipv4ToString j ∈ taken.reverse.map ipv4ToString ++
        [ipv4ToString gv, ipv4ToString base] := by simpa using h
    rcases List.mem_append.mp hmem with hm | hm
    · left
      rw [List.mem_map] at hm
      obtain ⟨x, hx, he⟩ := hm
      rw [List.mem_reverse] at hx
      have hxj := ipv4ToString_inj (hT x hx) hj he
      rwa [← hxj]
    · right
      simp only [List.mem_cons, List.not_mem_nil, or_false] at hm
      rcases hm with he | he
      · exact Or.inl (ipv4ToString_inj hj hg he)
      · exact Or.inr (ipv4ToString_inj hj hb he)
  · intro h
    have hmem : ipv4ToString j ∈ taken.reverse.map ipv4ToString ++
        [ipv4ToString gv, ipv4ToString base] := by
      rcases h with hm | rfl | rfl
      · exact List.mem_append.mpr (Or.inl (List.mem_map.mpr ⟨j, List.mem_reverse.mpr hm, rfl⟩))
      · exact List.mem_append.mpr (Or.inr (by simp))
      · exact List.mem_append.mpr (Or.inr (by simp))
    simpa using hmem

/-- One allocation step with free addresses left: the scan hands out
the i-th free address and claims it. -/
theorem assignService_c1_ok {networks : List (String × NetworkConfig)} {n : String}
    {net : NetworkConfig} {cfg0 : IPAMPool} {cfgs : List IPAMPool}
    {addr p gv base : Nat}
    (hlook : List.lookup n networks = some net)
    (hcfg : net.ipam.config = cfg0 :: cfgs)
    (hcidr : parseCIDR cfg0.subnet = some (addr, p))
    (hbaseF : maskFloor addr p = base)
    (hgv1 : base ≤ gv) (hgv2 : gv < base + hostSize p)
    (i : Nat) (hiL : i < (freeAddrs base p gv).length) :
    assignService networks [(n, some { ipv4Address := "" })]
        (c1Used n base gv ((freeAddrs base p gv).take i)) =
      .ok ([(n, some { ipv4Address := ipv4ToString ((freeAddrs base p gv)[i]) })],
        c1Used n base gv ((freeAddrs base p gv).take (i + 1))) := by
  have hp32 : p ≤ 32 := (parseCIDR_inv hcidr).2.1
  have haddr : addr < 2 ^ 32 := (parseCIDR_inv hcidr).2.2.1
  have hdvd : hostSize p ∣ base := hbaseF ▸ maskFloor_dvd addr p
  have hb2 : base + hostSize p ≤ 2 ^ 32 := hbaseF ▸ maskFloor_add_le hp32 haddr
  have hpos := hostSize_pos p
  have hbase32 : base < 2 ^ 32 := by omega
  have hg32 : gv < 2 ^ 32 := by omega
  have hLmem : ∀ x ∈ freeAddrs base p gv, x < 2 ^ 32 := by
    intro x hx
    have := mem_freeAddrs.mp hx
    omega
  have htk32 : ∀ x ∈ (freeAddrs base p gv).take i, x < 2 ^ 32 :=
    fun x hx => hLmem x ((List.take_sublist i _).subset hx)
  have hiMem := mem_freeAddrs.mp (List.getElem_mem hiL)
  have hi32 : (freeAddrs base p gv)[i] < 2 ^ 32 := hLmem _ (List.getElem_mem hiL)
  have hused_eq : usedLookup (c1Used n base gv ((freeAddrs base p gv).take i)) n =
      ((freeAddrs base p gv).take i).reverse.map ipv4ToString ++
        [ipv4ToString gv, ipv4ToString base] := by
    simp [c1Used, usedLookup, List.lookup]
  have hufree : (((freeAddrs base p gv).take i).reverse.map ipv4ToString ++
      [ipv4ToString gv, ipv4ToString base]).contains
        (ipv4ToString ((freeAddrs base p gv)[i])) = false := by
    rcases hb : (((freeAddrs base p gv).take i).reverse.map ipv4ToString ++
        [ipv4ToString gv, ipv4ToString base]).contains
          (ipv4ToString ((freeAddrs base p gv)[i])) with _ | _
    · rfl
    · exfalso
      rcases (contains_canon htk32 hg32 hbase32 hi32).mp hb with hm | he | he
      · have := take_lt_getElem (pairwise_freeAddrs base p gv) hiL hm
        omega
      · exact hiMem.2.2 he
      · omega
  have hmin : ∀ x, base ≤ x → x < (freeAddrs base p gv)[i] →
      (((freeAddrs base p gv).take i).reverse.map ipv4ToString ++
        [ipv4ToString gv, ipv4ToString base]).contains (ipv4ToString x) = true := by
    intro x hx1 hx2
    have hx32 : x < 2 ^ 32 := by omega
    apply (contains_canon htk32 hg32 hbase32 hx32).mpr
    by_cases hxb : x = base
    · exact Or.inr (Or.inr hxb)
    · by_cases hxg : x = gv
      · exact Or.inr (Or.inl hxg)
      · refine Or.inl (mem_take_of_lt_getElem (pairwise_freeAddrs base p gv) hiL ?_ hx2)
        rw [mem_freeAddrs]
        refine ⟨by omega, by omega, hxg⟩
  have hloop : allocLoop (cidrContains base p)
      (fun j => (((freeAddrs base p gv).take i).reverse.map ipv4ToString ++
        [ipv4ToString gv, ipv4ToString base]).contains (ipv4ToString j)) fuel32 base =
      (freeAddrs base p gv)[i] := by
    refine allocLoop_reach hdvd hb2 fuel32 base _ le_rfl (by omega) (by omega) hufree
      (fun x h1 h2 => hmin x h1 h2) ?_
    have h1 : (freeAddrs base p gv)[i] < base + hostSize p := hiMem.2.1
    unfold fuel32
    omega
  have htake1 : (freeAddrs base p gv).take (i + 1) =
      (freeAddrs base p gv).take i ++ [(freeAddrs base p gv)[i]] := by
    rw [List.take_succ, List.getElem?_eq_getElem hiL]
    rfl
  have hins : usedInsert (c1Used n base gv ((freeAddrs base p gv).take i)) n
      (ipv4ToString ((freeAddrs base p gv)[i])) =
      c1Used n base gv ((freeAddrs base p gv).take (i + 1)) := by
    unfold usedInsert c1Used
    rw [htake1]
    simp
    rw [List.take_succ, List.getElem?_eq_getElem
      (show i < (List.map ipv4ToString (freeAddrs base p gv)).length by simpa using hiL)]
    simp [List.getElem_map]
  unfold assignService
  simp only []
  rw [if_pos trivial]
  simp only [hlook, Option.getD_some, hcfg, hcidr, hbaseF, hused_eq, hloop]
  rw [if_pos ((cidrContains_iff hdvd).mpr ⟨by omega, hiMem.2.1⟩)]
  simp only [assignService, hins]

/-- One allocation step with no free address left: the scan sweeps the
whole subnet, leaves it, and the exhaustion error is returned. -/
theorem assignService_c1_err {networks : List (String × NetworkConfig)} {n : String}
    {net : NetworkConfig} {cfg0 : IPAMPool} {cfgs : List IPAMPool}
    {addr p gv base : Nat}
    (hlook : List.lookup n networks = some net)
    (hcfg : net.ipam.config = cfg0 :: cfgs)
    (hcidr : parseCIDR cfg0.subnet = some (addr, p))
    (hp : 1 ≤ p)
    (hbaseF : maskFloor addr p = base)
    (hgv1 : base ≤ gv) (hgv2 : gv < base + hostSize p) :
    assignService networks [(n, some { ipv4Address := "" })]
        (c1Used n base gv (freeAddrs base p gv)) =
      .error ("not enough free IP addresses in network " ++ n) := by
  have hp32 : p ≤ 32 := (parseCIDR_inv hcidr).2.1
  have haddr : addr < 2 ^ 32 := (parseCIDR_inv hcidr).2.2.1
  have hdvd : hostSize p ∣ base := hbaseF ▸ maskFloor_dvd addr p
  have hb2 : base + hostSize p ≤ 2 ^ 32 := hbaseF ▸ maskFloor_add_le hp32 haddr
  have hpos := hostSize_pos p
  have hbase32 : base < 2 ^ 32 := by omega
  have hg32 : gv < 2 ^ 32 := by omega
  have hLmem : ∀ x ∈ freeAddrs base p gv, x < 2 ^ 32 := by
    intro x hx
    have := mem_freeAddrs.mp hx
    omega
  have hused_eq : usedLookup (c1Used n base gv (freeAddrs base p gv)) n =
      (freeAddrs base p gv).reverse.map ipv4ToString ++
        [ipv4ToString gv, ipv4ToString base] := by
    simp [c1Used, usedLookup, List.lookup]
  have hall : ∀ x, base ≤ x → x < base + hostSize p →
      ((freeAddrs base p gv).reverse.map ipv4ToString ++
        [ipv4ToString gv, ipv4ToString base]).contains (ipv4ToString x) = true := by
    intro x hx1 hx2
    have hx32 : x < 2 ^ 32 := by omega
    apply (contains_canon hLmem hg32 hbase32 hx32).mpr
    by_cases hxb : x = base
    · exact Or.inr (Or.inr hxb)
    · by_cases hxg : x = gv
      · exact Or.inr (Or.inl hxg)
      · refine Or.inl (mem_freeAddrs.mpr ⟨by omega, hx2, hxg⟩)
  have hfull : cidrContains base p (allocLoop (cidrContains base p)
      (fun j => ((freeAddrs base p gv).reverse.map ipv4ToString ++
        [ipv4ToString gv, ipv4ToString base]).contains (ipv4ToString j)) fuel32 base) =
      false := by
    refine allocLoop_full hdvd hp hb2 fuel32 base le_rfl (by omega)
      (fun x h1 h2 => hall x h1 h2) ?_
    unfold fuel32
    omega
  unfold assignService
  simp only []
  rw [if_pos trivial]
  simp only [hlook, Option.getD_some, hcfg, hcidr, hbaseF, hused_eq]
  rw [if_neg ?hcond]
  case hcond =>
    rw [hfull]
    simp

/-- The allocation pass over unpinned one-attachment services is
first-fit over the free-address list: with enough free addresses the
i-th service gets the i-th free address; otherwise the pass fails with
the exhaustion error. -/
theorem assignAddresses_scan {networks : List (String × NetworkConfig)} {n : String}
    {net : NetworkConfig} {cfg0 : IPAMPool} {cfgs : List IPAMPool}
    {addr p gv base : Nat}
    (hlook : List.lookup n networks = some net)
    (hcfg : net.ipam.config = cfg0 :: cfgs)
    (hcidr : parseCIDR cfg0.subnet = some (addr, p))
    (hp : 1 ≤ p)
    (hbaseF : maskFloor addr p = base)
    (hgv1 : base ≤ gv) (hgv2 : gv < base + hostSize p) :
    ∀ (svcs : List ServiceConfig) (i : Nat),
      (∀ s ∈ svcs, s.networks = some [(n, some { ipv4Address := "" })]) →
      i ≤ (freeAddrs base p gv).length →
      ((i + svcs.length ≤ (freeAddrs base p gv).length →
        assignAddresses networks svcs (c1Used n base gv ((freeAddrs base p gv).take i)) =
          .ok (c1Out n svcs (((freeAddrs base p gv).drop i).take svcs.length),
            c1Used n base gv ((freeAddrs base p gv).take (i + svcs.length)))) ∧
       ((freeAddrs base p gv).length < i + svcs.length →
        assignAddresses networks svcs (c1Used n base gv ((freeAddrs base p gv).take i)) =
          .error ("not enough free IP addresses in network " ++ n))) := by
  intro svcs
  induction svcs with
  | nil =>
      intro i hshape hile
      constructor
      · intro hle
        rfl
      · intro hgt
        simp only [List.length_nil] at hgt
        omega
  | cons s rest ih =>
      intro i hshape hile
      have hs : s.networks = some [(n, some { ipv4Address := "" })] :=
        hshape s (List.mem_cons_self _ _)
      have hshape2 : ∀ t ∈ rest, t.networks = some [(n, some { ipv4Address := "" })] :=
        fun t ht => hshape t (List.mem_cons_of_mem _ ht)
      by_cases hiL : i < (freeAddrs base p gv).length
      · have hok := assignService_c1_ok hlook hcfg hcidr hbaseF hgv1 hgv2 i hiL
        have ihs := ih (i + 1) hshape2 (by omega)
        have hdropi : (freeAddrs base p gv).drop i =
            (freeAddrs base p gv)[i] :: (freeAddrs base p gv).drop (i + 1) :=
          List.drop_eq_getElem_cons hiL
        constructor
        · intro hle
          simp only [List.length_cons] at hle
          unfold assignAddresses
          simp only [hs, hok]
          have hrec := ihs.1 (by omega)
          simp only [hrec]
          unfold c1Out
          rw [hdropi]
          simp only [List.take_succ_cons, List.zipWith_cons_cons, List.length_cons]
          rw [show i + (rest.length + 1) = i + 1 + rest.length by omega]
        · intro hgt
          simp only [List.length_cons] at hgt
          unfold assignAddresses
          simp only [hs, hok]
          have hrec := ihs.2 (by omega)
          simp only [hrec]
      · have hieq : i = (freeAddrs base p gv).length := by omega
        have htkall : (freeAddrs base p gv).take i = freeAddrs base p gv := by
          rw [hieq, List.take_length]
        have herr := assignService_c1_err hlook hcfg hcidr hp hbaseF hgv1 hgv2
        constructor
        · intro hle
          simp only [List.length_cons] at hle
          omega
        · intro hgt
          unfold assignAddresses
          simp only [hs, htkall, herr]

/-- C1 (amended): for a valid network of `hostSize p` addresses whose
effective gateway value `gv` lies in the subnet, the allocator has
`hostSize p - 1` free addresses when the gateway equals the base (the
default-gateway case) and `hostSize p - 2` otherwise; allocation for K
unpinned one-attachment services succeeds exactly when K is at most
that count, handing out pairwise-distinct in-subnet addresses distinct
from the gateway and the base, and fails with the exhaustion error
otherwise. -/
theorem c1_allocation_amended {networks : List (String × NetworkConfig)} {n : String}
    {net : NetworkConfig} {cfg0 : IPAMPool} {cfgs : List IPAMPool}
    {addr p gv base : Nat}
    (hlook : List.lookup n networks = some net)
    (hcfg : net.ipam.config = cfg0 :: cfgs)
    (hcidr : parseCIDR cfg0.subnet = some (addr, p))
    (hp : 1 ≤ p)
    (hbaseF : maskFloor addr p = base)
    (hgv1 : base ≤ gv) (hgv2 : gv < base + hostSize p)
    (svcs : List ServiceConfig)
    (hshape : ∀ s ∈ svcs, s.networks = some [(n, some { ipv4Address := "" })]) :
    ((freeAddrs base p gv).length =
        if gv = base then hostSize p - 1 else hostSize p - 2) ∧
    (svcs.length ≤ (freeAddrs base p gv).length →
      assignAddresses networks svcs (c1Used n base gv []) =
        .ok (c1Out n svcs ((freeAddrs base p gv).take svcs.length),
          c1Used n base gv ((freeAddrs base p gv).take svcs.length)) ∧
      ((freeAddrs base p gv).take svcs.length).length = svcs.length ∧
      ((freeAddrs base p gv).take svcs.length).Nodup ∧
      (∀ a ∈ (freeAddrs base p gv).take svcs.length,
        base < a ∧ a < base + hostSize p ∧ a ≠ gv ∧ a ≠ base)) ∧
    ((freeAddrs base p gv).length < svcs.length →
      assignAddresses networks svcs (c1Used n base gv []) =
        .error ("not enough free IP addresses in network " ++ n)) := by
  have hscan := assignAddresses_scan hlook hcfg hcidr hp hbaseF hgv1 hgv2 svcs 0
    hshape (by omega)
  rw [List.take_zero, List.drop_zero] at hscan
  refine ⟨length_freeAddrs hgv1 hgv2, ?_, ?_⟩
  · intro hle
    refine ⟨by simpa using hscan.1 (by omega), ?_, ?_, ?_⟩
    · rw [List.length_take]
      omega
    · exact (nodup_freeAddrs base p gv).sublist (List.take_sublist _ _)
    · intro a ha
      have hmem := mem_freeAddrs.mp ((List.take_sublist _ _).subset ha)
      exact ⟨by omega, hmem.2.1, hmem.2.2, by omega⟩
  · intro hgt
    simpa using hscan.2 (by omega)

/-- C1 counterexample: on a /31 subnet with no gateway given, the
defaulted gateway coincides with the base, so one address remains free
and validation with one unpinned service succeeds — the claim's N-2
bound predicts exhaustion (K = 1 > N - 2 = 0). -/
theorem c1_threshold_cex :
    validate (.ok "kvm") (.ok "x86_64") c1CexProject = .ok c1CexProjectOut ∧
    c1CexProject.services.length = 1 ∧ hostSize 31 - 2 = 0 :=
  ⟨rfl, rfl, rfl⟩

/-- Witness for the amended C1 on the /31 default-gateway network: one
service is allocated the single free address. -/
theorem c1_allocation_amended_witness :
    assignAddresses [("n1", c1Net)]
        [{ webService with networks := some [("n1", some { ipv4Address := "" })] }]
        (c1Used "n1" 167772160 167772160 []) =
      .ok (c1Out "n1"
          [{ webService with networks := some [("n1", some { ipv4Address := "" })] }]
          ((freeAddrs 167772160 31 167772160).take 1),
        c1Used "n1" 167772160 167772160 ((freeAddrs 167772160 31 167772160).take 1)) :=
  (((@c1_allocation_amended [("n1", c1Net)] "n1" c1Net
      { subnet := "10.0.0.0/31", gateway := "" } [] 167772160 31 167772160 167772160
      rfl rfl rfl (by decide) rfl (by decide) (by decide)
      [{ webService with networks := some [("n1", some { ipv4Address := "" })] }]
      (by
        intro s hs
        rw [List.mem_singleton] at hs
        subst hs
        rfl)).2.1) (by decide)).1

end Kraftkit
